import Mathlib

/-!
Shallow embedding of the HttpCall engine (Go) for checking its
natural-language specification.

Go strings are modelled as `List Char` (UTF-8 byte order and Unicode code
point order coincide, so lexicographic comparison on `Char` matches Go's
byte-wise string comparison for the ASCII data handled here).  Machine
integers (`uint16`, `uint32`, `int64`) are modelled as `Nat`/`Int` with
explicit range checks where the Go code performs them.
-/

/-- Go `string`, modelled as its list of characters. -/
abbrev GoStr := List Char

/-- Go `strings.Split(s, sep)` for a one-character separator `sep`
(every separator used by this code base — `"|" ";" ":" "," "-"` — is a
single character).  `Split("") = [""]`. -/
def goSplit (sep : Char) : GoStr → List GoStr
  | [] => [[]]
  | c :: rest =>
    let r := goSplit sep rest
    if c = sep then [] :: r
    else
      match r with
      | [] => [[c]]
      | h :: t => (c :: h) :: t

/-- Go `strings.SplitN(s, sep, 2)` for a one-character separator: split at
the first occurrence of `sep` only. -/
def goSplitN2 (sep : Char) : GoStr → List GoStr
  | [] => [[]]
  | c :: rest =>
    if c = sep then [[], rest]
    else
      match goSplitN2 sep rest with
      | [] => [[c]]
      | h :: t => (c :: h) :: t

/-- Decimal value of a digit string (most significant digit first). -/
def decDigitsVal (s : GoStr) : Nat :=
  s.foldl (fun acc c => acc * 10 + (c.toNat - 48)) 0

/-- Go `strconv.ParseUint(s, 10, bits)`: a non-empty all-digit decimal
string whose value fits in `bits` bits; `none` models a returned error
(syntax or range). -/
def goParseUintDec (bits : Nat) (s : GoStr) : Option Nat :=
  if s = [] then none
  else if s.all Char.isDigit then
    let v := decDigitsVal s
    if v < 2 ^ bits then some v else none
  else none

/-- Go `strconv.Atoi(s)`: result value and whether an error was returned.
A syntax error yields `(0, true)`; an out-of-range value yields the
clamped `int64` bound and `true`. -/
def goAtoi (s : GoStr) : Int × Bool :=
  let signed : Bool × GoStr :=
    match s with
    | '-' :: r => (true, r)
    | '+' :: r => (false, r)
    | r => (false, r)
  let ds := signed.2
  if ds = [] ∨ ¬ ds.all Char.isDigit then (0, true)
  else
    let v : Int := (decDigitsVal ds : Nat)
    let v := if signed.1 then -v else v
    if v < -(2 ^ 63) then (-(2 ^ 63), true)
    else if v ≥ 2 ^ 63 then (2 ^ 63 - 1, true)
    else (v, false)

/-- Go `strings.TrimSpace` (ASCII whitespace; the engine only trims the
single-letter tokens of the Akamai header-order list). -/
def goTrimSpace (s : GoStr) : GoStr :=
  (s.dropWhile Char.isWhitespace).reverse.dropWhile Char.isWhitespace |>.reverse

/-- Go `strings.ToLower` restricted to ASCII letters (header keys are
ASCII in this engine). -/
def goToLower (s : GoStr) : GoStr := s.map Char.toLower

/-- Go `strings.Join(v, sep)` / `strings.Repeat`-style interleaving. -/
def goJoin (sep : GoStr) : List GoStr → GoStr
  | [] => []
  | [x] => x
  | x :: y :: rest => x ++ sep ++ goJoin sep (y :: rest)

namespace http2fp

/-- `Setting` (settings.go): one HTTP/2 SETTINGS parameter,
`ID uint16`, `Val uint32`. -/
structure Setting where
  id : Nat
  val : Nat
deriving DecidableEq, Repr

/-- `ParsedAkamai` (akamai.go): parsed Akamai HTTP/2 fingerprint. -/
structure ParsedAkamai where
  settings : List Setting
  windowUpdateIncrement : Nat
  priorityFrames : GoStr
  headerOrder : List GoStr
deriving DecidableEq, Repr

/-- One pass of the SETTINGS-part loop body of `ParseAkamaiText`:
`kv := strings.SplitN(pair, ":", 2)`, both halves must parse as
`uint16` / `uint32`, otherwise the pair is skipped (`continue`). -/
def parseSettingPair (pair : GoStr) : Option Setting :=
  match goSplitN2 ':' pair with
  | [k, v] =>
    match goParseUintDec 16 k, goParseUintDec 32 v with
    | some i, some w => some ⟨i, w⟩
    | _, _ => none
  | _ => none

/-- The letter map of `ParseAkamaiText` part 4. -/
def letterToPseudoHeader (letter : GoStr) : Option GoStr :=
  if letter = "m".toList then some ":method".toList
  else if letter = "a".toList then some ":authority".toList
  else if letter = "s".toList then some ":scheme".toList
  else if letter = "p".toList then some ":path".toList
  else none

/-- `ParseAkamaiText` (akamai.go): parses
`SETTINGS|WINDOW_UPDATE|PRIORITY|HEADER_ORDER`; errors only on the empty
string, and silently skips unparseable components. -/
def parseAkamaiText (akamai : GoStr) : Except GoStr ParsedAkamai :=
  if akamai = [] then .error "empty Akamai fingerprint".toList
  else
    let parts := goSplit '|' akamai
    let settings :=
      if parts.headD [] ≠ [] then
        (goSplit ';' (parts.headD [])).filterMap parseSettingPair
      else []
    let wu :=
      if parts.length > 1 ∧ parts.getD 1 [] ≠ [] then
        (goParseUintDec 32 (parts.getD 1 [])).getD 0
      else 0
    let priority := if parts.length > 2 then parts.getD 2 [] else []
    let horder :=
      if parts.length > 3 ∧ parts.getD 3 [] ≠ [] then
        (goSplit ',' (parts.getD 3 [])).filterMap
          (fun letter => letterToPseudoHeader (goTrimSpace letter))
      else []
    .ok ⟨settings, wu, priority, horder⟩

/-- The setting pairs as they appear in the SETTINGS part of an Akamai
text, in text order: the claim's reading of
"the setting pairs appear in the Akamai text". -/
def textSettingPairs (akamai : GoStr) : List Setting :=
  let p0 := (goSplit '|' akamai).headD []
  if p0 = [] then [] else (goSplit ';' p0).filterMap parseSettingPair

end http2fp

namespace http2fp

/-- An HPACK header field (`hpack.HeaderField`): name/value pair.  HPACK
byte-level compression is abstracted away: a header block is the sequence
of fields written to / decoded from it, which is exactly what the claims
quantify over. -/
structure HeaderField where
  name : GoStr
  value : GoStr
deriving DecidableEq, Repr

/-- Big-endian bytes of a `uint16` (as written by the x/net framer). -/
def putUint16be (n : Nat) : List Nat := [n / 2 ^ 8 % 2 ^ 8, n % 2 ^ 8]

/-- Big-endian bytes of a `uint32` (as written by the x/net framer). -/
def putUint32be (n : Nat) : List Nat :=
  [n / 2 ^ 24 % 2 ^ 8, n / 2 ^ 16 % 2 ^ 8, n / 2 ^ 8 % 2 ^ 8, n % 2 ^ 8]

/-- Payload of the SETTINGS frame produced by
`Framer.WriteSettings(settings...)` (golang.org/x/net/http2): for each
setting, in argument order, its 16-bit ID then its 32-bit value,
big-endian. -/
def settingsFramePayload (ss : List Setting) : List Nat :=
  ss.flatMap (fun s => putUint16be s.id ++ putUint32be s.val)

/-- Decoder of a SETTINGS frame payload back into its parameter list
(6 bytes per parameter, big-endian), used to state what the written frame
"contains". -/
def decodeSettingsPayload : List Nat → List Setting
  | b0 :: b1 :: b2 :: b3 :: b4 :: b5 :: rest =>
    ⟨b0 * 2 ^ 8 + b1, ((b2 * 2 ^ 8 + b3) * 2 ^ 8 + b4) * 2 ^ 8 + b5⟩ ::
      decodeSettingsPayload rest
  | _ => []

/-- The frames a `CustomH2Transport.RoundTrip` writes into its buffered
writer (transport.go). -/
inductive H2Frame where
  | settings (params : List Setting)
  | windowUpdate (streamID increment : Nat)
  | headers (streamID : Nat) (blockFragment : List HeaderField)
      (endStream endHeaders : Bool)
  | data (streamID : Nat) (payload : List Nat) (endStream : Bool)
deriving DecidableEq, Repr

/-- Go `net/textproto` valid header-field byte (token characters).
`Char.ofNat 96` is the backquote character. -/
def validHeaderFieldChar (c : Char) : Bool :=
  c.isAlphanum ||
    [ '!', '#', '$', '%', '&', Char.ofNat 39, '*', '+', '-', '.', '^', '_',
      Char.ofNat 96, '|', '~' ].contains c

/-- Go `http.CanonicalHeaderKey`: if every byte is a valid header-field
byte, uppercase the first letter and each letter following a hyphen and
lowercase the rest; otherwise return the key unchanged. -/
def canonicalHeaderKey (s : GoStr) : GoStr :=
  if s.all validHeaderFieldChar then
    (s.foldl
      (fun (acc : GoStr × Bool) c =>
        let c' := if acc.2 then c.toUpper else c.toLower
        (acc.1 ++ [c'], c = '-'))
      ([], true)).1
  else s

/-- Lookup in a Go `http.Header` (`map[string][]string`), modelled as an
association list whose order is one enumeration the runtime may choose;
lookup itself is order-independent because map keys are unique. -/
def hdrLookup (hdr : List (GoStr × List GoStr)) (k : GoStr) :
    Option (List GoStr) :=
  (hdr.find? (fun e => e.1 = k)).map Prod.snd

/-- Field emissions for one key: Go lowercases the name
(`lk := strings.ToLower(key)`) and writes one field per value. -/
def emitKey (k : GoStr) (vals : List GoStr) : List HeaderField :=
  vals.map (fun v => ⟨goToLower k, v⟩)

/-- One iteration of the `t.HeaderOrder` loop in `encodeHeaders`: look
the canonical key up in the request headers; on a hit append its field
emissions and mark the canonical key written. -/
def encodeOrderStep (hdr : List (GoStr × List GoStr))
    (acc : List HeaderField × List GoStr) (key : GoStr) :
    List HeaderField × List GoStr :=
  let canonical := canonicalHeaderKey key
  match hdrLookup hdr canonical with
  | some vals => (acc.1 ++ emitKey key vals, acc.2 ++ [canonical])
  | none => acc

/-- The fields one ordered key contributes (empty when the key is not a
request header). -/
def orderFieldsOf (hdr : List (GoStr × List GoStr)) (k : GoStr) :
    List HeaderField :=
  match hdrLookup hdr (canonicalHeaderKey k) with
  | some vals => emitKey k vals
  | none => []

/-- The `written` mark one ordered key contributes. -/
def writtenKeyOf (hdr : List (GoStr × List GoStr)) (k : GoStr) :
    Option GoStr :=
  match hdrLookup hdr (canonicalHeaderKey k) with
  | some _ => some (canonicalHeaderKey k)
  | none => none

/-- The regular (non-pseudo) part of `CustomH2Transport.encodeHeaders`
(transport.go).  `hdr` is the request's `http.Header` in the enumeration
order the Go map `range` produces (that order is unspecified by Go). -/
def encodeRegularHeaders (horder : List GoStr)
    (hdr : List (GoStr × List GoStr)) : List HeaderField :=
  if horder.length > 0 then
    let written := horder.foldl (encodeOrderStep hdr) ([], [])
    written.1 ++
      (hdr.filter (fun e => ! written.2.contains e.1)).flatMap
        (fun e => emitKey e.1 e.2)
  else
    hdr.flatMap (fun e => emitKey e.1 e.2)

/-- The pseudo-header part of `CustomH2Transport.encodeHeaders`: the four
pseudo headers, emitted in the Akamai order (default
`:method :authority :scheme :path`). -/
def pseudoHeaderFields (fp : ParsedAkamai)
    (method host scheme path : GoStr) : List HeaderField :=
  let pseudo : List (GoStr × GoStr) :=
    [ (":method".toList, method), (":authority".toList, host),
      (":scheme".toList, scheme), (":path".toList, path) ]
  let order :=
    if fp.headerOrder.length = 0 then
      [ ":method".toList, ":authority".toList, ":scheme".toList,
        ":path".toList ]
    else fp.headerOrder
  order.filterMap (fun h => ((pseudo.find? (fun e => e.1 = h)).map
    (fun e => HeaderField.mk h e.2)))

/-- `CustomH2Transport.encodeHeaders`: pseudo headers then regular
headers. -/
def encodeHeaders (fp : ParsedAkamai) (horder : List GoStr)
    (method host scheme path : GoStr)
    (hdr : List (GoStr × List GoStr)) : List HeaderField :=
  pseudoHeaderFields fp method host scheme path ++
    encodeRegularHeaders horder hdr

/-- The frame sequence `CustomH2Transport.RoundTrip` writes after the
connection preface: SETTINGS (parameters converted one-for-one, in order,
from `t.Fingerprint.Settings`), then WINDOW_UPDATE on stream 0 iff the
increment is positive, then HEADERS on stream 1, then the DATA frames of
the request body (whose chunking, produced by the body-read loop, is
passed in as `bodyFrames`; no claim depends on it). -/
def roundTripWrittenFrames (fp : ParsedAkamai) (horder : List GoStr)
    (method host scheme path : GoStr) (hdr : List (GoStr × List GoStr))
    (hasBody : Bool) (bodyFrames : List H2Frame) : List H2Frame :=
  H2Frame.settings (fp.settings.map (fun s => ⟨s.id, s.val⟩)) ::
    ((if fp.windowUpdateIncrement > 0 then
        [H2Frame.windowUpdate 0 fp.windowUpdateIncrement]
      else []) ++
      [H2Frame.headers 1 (encodeHeaders fp horder method host scheme path hdr)
        (!hasBody) true] ++
      (if hasBody then bodyFrames else []))

end http2fp

namespace http2fp

/-- `maxResponseBodySize` (transport.go): 100 MiB. -/
def maxResponseBodySize : Nat := 100 * 1024 * 1024

/-- `net/http.StatusText`, restricted to the status codes exercised here;
for any unknown code — in particular `0` — Go returns `""`. -/
def goStatusText (code : Int) : GoStr :=
  if code = 200 then "OK".toList
  else if code = 301 then "Moved Permanently".toList
  else if code = 302 then "Found".toList
  else if code = 404 then "Not Found".toList
  else []

/-- A frame as delivered by `Framer.ReadFrame` to the `readResponse`
loop.  HPACK decoding is abstracted: a HEADERS frame carries its decoded
field list. -/
inductive RecvFrame where
  | headers (streamID : Nat) (fields : List HeaderField) (endStream : Bool)
  | data (streamID : Nat) (payload : List Nat) (endStream : Bool)
  | settings (isAck : Bool)
  | ping (isAck : Bool) (payload : List Nat)
  | windowUpdate (streamID increment : Nat)
  | goAway (errCode lastStreamID : Nat)
  | rstStream (streamID errCode : Nat)
  | other
deriving DecidableEq, Repr

/-- The `http.Response` fields `readResponse` fills in. -/
structure H2Response where
  statusCode : Int
  status : GoStr
  header : List HeaderField
  body : List Nat
deriving DecidableEq, Repr

/-- Processing of one decoded header field in `readResponse`: `:status`
runs `strconv.Atoi` (0 on a syntax error, only logged) and builds
`resp.Status = hf.Value + " " + http.StatusText(code)`; any other field
is appended to the header bag. -/
def applyHeaderField (resp : H2Response) (hf : HeaderField) : H2Response :=
  if hf.name = ":status".toList then
    let code := (goAtoi hf.value).1
    { resp with
        statusCode := code,
        status := hf.value ++ " ".toList ++ goStatusText code }
  else { resp with header := resp.header ++ [hf] }

/-- `readResponse` (transport.go): the frame-processing loop, over the
sequence of frames the framer will deliver; an exhausted sequence models
`ReadFrame` returning an error (EOF / deadline), which yields the partial
response iff headers were already received.  The loop's writes
(WINDOW_UPDATE, SETTINGS ACK, PING ACK) do not affect the response and
are not tracked. -/
def readResponseLoop (streamID : Nat) :
    List RecvFrame → H2Response → List Nat → Bool →
    Except GoStr H2Response
  | [], resp, bodyBuf, headersReceived =>
    if headersReceived then .ok { resp with body := bodyBuf }
    else .error "read response".toList
  | f :: rest, resp, bodyBuf, headersReceived =>
    match f with
    | .headers sid fields endStream =>
      if sid ≠ streamID then
        readResponseLoop streamID rest resp bodyBuf headersReceived
      else
        let resp := fields.foldl applyHeaderField resp
        if endStream then .ok { resp with body := bodyBuf }
        else readResponseLoop streamID rest resp bodyBuf true
    | .data sid payload endStream =>
      if sid ≠ streamID then
        readResponseLoop streamID rest resp bodyBuf headersReceived
      else if bodyBuf.length + payload.length > maxResponseBodySize then
        .error "response body exceeds limit".toList
      else
        let bodyBuf := bodyBuf ++ payload
        if endStream then .ok { resp with body := bodyBuf }
        else readResponseLoop streamID rest resp bodyBuf headersReceived
    | .settings _ => readResponseLoop streamID rest resp bodyBuf headersReceived
    | .ping _ _ => readResponseLoop streamID rest resp bodyBuf headersReceived
    | .windowUpdate _ _ =>
      readResponseLoop streamID rest resp bodyBuf headersReceived
    | .goAway errCode lastStreamID =>
      if headersReceived then .ok { resp with body := bodyBuf }
      else if errCode = 0 ∧ lastStreamID ≥ streamID then
        readResponseLoop streamID rest resp bodyBuf headersReceived
      else .error "GOAWAY".toList
    | .rstStream sid _errCode =>
      if sid = streamID then
        if headersReceived then .ok { resp with body := bodyBuf }
        else .error "RST_STREAM".toList
      else readResponseLoop streamID rest resp bodyBuf headersReceived
    | .other => readResponseLoop streamID rest resp bodyBuf headersReceived

/-- `readResponse` entry: fresh response (`Proto = "HTTP/2.0"`, empty
header bag, empty body buffer, no headers received yet). -/
def readResponse (streamID : Nat) (frames : List RecvFrame) :
    Except GoStr H2Response :=
  readResponseLoop streamID frames ⟨0, [], [], []⟩ [] false

end http2fp

namespace httpclient

/-- The body read of `parseResponse` (response assembly for the HTTP/1.1
and standard HTTP/2 paths):
`io.ReadAll(io.LimitReader(resp.Body, maxBodySize))` with
`maxBodySize = 100 * 1024 * 1024`.  `io.LimitReader` stops after the cap
with a plain EOF, so the read never fails on an oversized body — it
silently truncates. -/
def limitReadAll (body : List Nat) : List Nat :=
  body.take http2fp.maxResponseBodySize

/-- The outcome of `parseResponse`'s body read: the Go code returns an
error only when the underlying reader fails, never because of the cap. -/
def parseResponseBodyRead (body : List Nat) : Except GoStr (List Nat) :=
  .ok (limitReadAll body)

end httpclient

namespace tlsfp

/-- `ParsedJA3` (JA3 parser): parsed components of a JA3 text. -/
structure ParsedJA3 where
  tlsVersion : Nat
  cipherSuites : List Nat
  extensions : List Nat
  curves : List Nat
  pointFormats : List Nat
deriving DecidableEq, Repr

/-- `ParseJA3Text`: `TLSVersion,CipherSuites,Extensions,Curves,PointFormats`;
at least three comma-separated parts; the version must parse as `uint16`;
list items that fail to parse are skipped; the last two lists are
optional. -/
def parseJA3Text (ja3 : GoStr) : Except GoStr ParsedJA3 :=
  let parts := goSplit ',' ja3
  if parts.length < 3 then .error "invalid JA3 format".toList
  else
    match goParseUintDec 16 (parts.headD []) with
    | none => .error "invalid TLS version".toList
    | some ver =>
      let ciphers :=
        if parts.getD 1 [] ≠ [] then
          (goSplit '-' (parts.getD 1 [])).filterMap (goParseUintDec 16)
        else []
      let exts :=
        if parts.getD 2 [] ≠ [] then
          (goSplit '-' (parts.getD 2 [])).filterMap (goParseUintDec 16)
        else []
      let curves :=
        if parts.length > 3 ∧ parts.getD 3 [] ≠ [] then
          (goSplit '-' (parts.getD 3 [])).filterMap (goParseUintDec 16)
        else []
      let pfs :=
        if parts.length > 4 ∧ parts.getD 4 [] ≠ [] then
          (goSplit '-' (parts.getD 4 [])).filterMap (goParseUintDec 8)
        else []
      .ok ⟨ver, ciphers, exts, curves, pfs⟩

/-- `isGREASE` (ja3.go): the sixteen RFC 8701 GREASE code points. -/
def isGREASE (value : Nat) : Bool :=
  [ 0x0a0a, 0x1a1a, 0x2a2a, 0x3a3a, 0x4a4a, 0x5a5a, 0x6a6a, 0x7a7a,
    0x8a8a, 0x9a9a, 0xaaaa, 0xbaba, 0xcaca, 0xdada, 0xeaea,
    0xfafa ].contains value

/-- A utls `TLSExtension` value as built by `mapExtensionIDs` /
`BuildSpecFromJA3` (fingerprint.go): one constructor per typed extension
the table can produce, `greasePlaceholder` for the builder-injected
`UtlsGREASEExtension`, and `generic id` for `GenericExtension`
(opaque placeholder for an unknown id). -/
inductive TLSExtension where
  | sni
  | statusRequest
  | supportedCurves (curves : List Nat)
  | supportedPoints (formats : List Nat)
  | signatureAlgorithms (algs : List Nat)
  | alpn (protocols : List GoStr)
  | statusRequestV2
  | sct
  | padding
  | extendedMasterSecret
  | compressCertificate (algs : List Nat)
  | sessionTicket
  | supportedVersions (versions : List Nat)
  | pskKeyExchangeModes (modes : List Nat)
  | keyShare (shares : List (Nat × List Nat))
  | renegotiationInfo
  | applicationSettings (protocols : List GoStr)
  | applicationSettingsNew (protocols : List GoStr)
  | greaseECH
  | greasePlaceholder
  | generic (id : Nat)
deriving DecidableEq, Repr

/-- Default Chrome-like signature algorithms (`defaultSigAlgs`):
ecdsa_secp256r1_sha256, rsa_pss_rsae_sha256, rsa_pkcs1_sha256,
ecdsa_secp384r1_sha384, rsa_pss_rsae_sha384, rsa_pkcs1_sha384,
rsa_pss_rsae_sha512, rsa_pkcs1_sha512. -/
def defaultSigAlgs : List Nat :=
  [0x0403, 0x0804, 0x0401, 0x0503, 0x0805, 0x0501, 0x0806, 0x0601]

/-- Curves used for supported_groups: the JA3 curves, defaulting to
X25519 (29), P-256 (23), P-384 (24). -/
def curvesFor (parsed : ParsedJA3) : List Nat :=
  if parsed.curves.length > 0 then parsed.curves else [29, 23, 24]

/-- Point formats, defaulting to `[0]` (uncompressed). -/
def pointFormatsFor (parsed : ParsedJA3) : List Nat :=
  if parsed.pointFormats.length > 0 then parsed.pointFormats else [0]

/-- X25519MLKEM768 curve id (utls). -/
def x25519MLKEM768 : Nat := 4588

/-- Key shares for extension 51: GREASE with a 1-byte payload, then
X25519; X25519MLKEM768 is inserted between them when listed in the JA3
curves. -/
def keySharesFor (parsed : ParsedJA3) : List (Nat × List Nat) :=
  if parsed.curves.contains x25519MLKEM768 then
    [(0x0a0a, [0]), (x25519MLKEM768, []), (29, [])]
  else [(0x0a0a, [0]), (29, [])]

/-- The body of the `switch extID` in `mapExtensionIDs`: `some` the
extension appended for this id, or `none` when the id is a GREASE value
(the loop's `continue`). -/
def extensionOfID (parsed : ParsedJA3) (extID : Nat) : Option TLSExtension :=
  match extID with
  | 0 => some .sni
  | 5 => some .statusRequest
  | 10 => some (.supportedCurves (0x0a0a :: curvesFor parsed))
  | 11 => some (.supportedPoints (pointFormatsFor parsed))
  | 13 => some (.signatureAlgorithms defaultSigAlgs)
  | 16 => some (.alpn ["h2".toList, "http/1.1".toList])
  | 17 => some .statusRequestV2
  | 18 => some .sct
  | 21 => some .padding
  | 23 => some .extendedMasterSecret
  | 27 => some (.compressCertificate [2])
  | 35 => some .sessionTicket
  | 43 => some (.supportedVersions [0x0a0a, 0x0304, 0x0303])
  | 45 => some (.pskKeyExchangeModes [1])
  | 51 => some (.keyShare (keySharesFor parsed))
  | 65281 => some .renegotiationInfo
  | 17513 => some (.applicationSettings ["h2".toList])
  | 17613 => some (.applicationSettingsNew ["h2".toList])
  | 65037 => some .greaseECH
  | n => if isGREASE n then none else some (.generic n)

/-- `mapExtensionIDs` (fingerprint.go): walk the JA3 extension ids in
order, appending the mapped extension for each, skipping JA3-listed
GREASE ids. -/
def mapExtensionIDs (parsed : ParsedJA3) : List TLSExtension :=
  parsed.extensions.filterMap (extensionOfID parsed)

/-- The extension list built by `BuildSpecFromJA3` before the Chrome
shuffle: one GREASE extension prepended and one appended around the
mapped list. -/
def buildExtensionList (parsed : ParsedJA3) : List TLSExtension :=
  .greasePlaceholder :: mapExtensionIDs parsed ++ [.greasePlaceholder]

/-- `ClientHelloSpec` fields built by `BuildSpecFromJA3`. -/
structure ClientHelloSpec where
  cipherSuites : List Nat
  compressionMethods : List Nat
  extensions : List TLSExtension
  tlsVersMin : Nat
  tlsVersMax : Nat
deriving DecidableEq, Repr

/-- `BuildSpecFromJA3` (fingerprint.go), parameterized by the
`utls.ShuffleChromeTLSExtensions` permutation (an external, randomized
utls routine that permutes the list): GREASE cipher prepended, GREASE
extensions spliced in, shuffle applied, version range per the JA3
version. -/
def buildSpecFromJA3 (shuffle : List TLSExtension → List TLSExtension)
    (parsed : ParsedJA3) : ClientHelloSpec :=
  let vers : Nat × Nat :=
    if parsed.tlsVersion = 0x0303 then (0x0303, 0x0304)
    else if parsed.tlsVersion = 0x0304 then (0x0303, 0x0304)
    else (0x0303, 0x0304)
  { cipherSuites := 0x0a0a :: parsed.cipherSuites
    compressionMethods := [0]
    extensions := shuffle (buildExtensionList parsed)
    tlsVersMin := vers.1
    tlsVersMax := vers.2 }

/-- The claim-side per-id table: the typed extension a JA3 extension id
maps to, with every unknown non-GREASE id kept as an opaque placeholder.
For non-GREASE ids this is what `extensionOfID` produces. -/
def claimedExtensionForID (parsed : ParsedJA3) (extID : Nat) : TLSExtension :=
  (extensionOfID parsed extID).getD (.generic extID)

end tlsfp

namespace httpclient

/-- The response fields the redirect driver consumes. -/
structure HttpResponse where
  status : Int
  statusText : GoStr
  header : List (GoStr × List GoStr)
deriving DecidableEq, Repr

/-- Go `http.Header.Get`: first value of the (canonical) key, `""` when
absent. -/
def headerGet (hdr : List (GoStr × List GoStr)) (k : GoStr) : GoStr :=
  match (hdr.find? (fun e => e.1 = k)).map Prod.snd with
  | some (v :: _) => v
  | _ => []

/-- `models.RedirectHop`: one recorded hop. -/
structure RedirectHop where
  url : GoStr
  status : Int
  statusText : GoStr
  headers : List (GoStr × GoStr)
deriving DecidableEq, Repr

/-- The hop-header flattening of `followRedirects`: each non-empty
multi-value header joined by a newline. -/
def flattenHeaders (hdr : List (GoStr × List GoStr)) :
    List (GoStr × GoStr) :=
  hdr.filterMap (fun e =>
    if e.2.length > 0 then some (e.1, goJoin ['\n'] e.2) else none)

/-- Outcome of `followRedirects` (`([]RedirectHop, *http.Response, error)`). -/
inductive RedirectOutcome where
  | success (hops : List RedirectHop) (resp : HttpResponse)
  | failure (hops : List RedirectHop) (errMsg : GoStr)
deriving DecidableEq, Repr

/-- The `for i := 0; i < maxRedirects; i++` loop of `followRedirects`
(redirect.go), with the remaining iteration count as fuel.  `doReq`
models `client.Do` (request → response or transport error) keyed by the
request URL; `resolveURL` models `req.URL.Parse(location)` resolving a
`Location` value against the current URL.  Each hop records the URL of
the request that produced the `Location`, and the next request is a GET
for the resolved URL. -/
def followRedirectsLoop (doReq : GoStr → Except GoStr HttpResponse)
    (resolveURL : GoStr → GoStr → Option GoStr) (maxRedirects : Int) :
    Nat → GoStr → List RedirectHop → RedirectOutcome
  | 0, _, hops =>
    .failure hops ("too many redirects".toList)
  | n + 1, u, hops =>
    match doReq u with
    | .error e => .failure hops e
    | .ok resp =>
      if resp.status < 300 ∨ 400 ≤ resp.status then .success hops resp
      else
        let location := headerGet resp.header "Location".toList
        if location = [] then .success hops resp
        else
          let hop : RedirectHop :=
            ⟨u, resp.status, resp.statusText, flattenHeaders resp.header⟩
          match resolveURL u location with
          | none => .failure (hops ++ [hop]) "invalid redirect URL".toList
          | some nextU =>
            followRedirectsLoop doReq resolveURL maxRedirects n nextU
              (hops ++ [hop])

/-- `followRedirects` (redirect.go): `maxRedirects <= 0` defaults to 10,
then run the loop from the initial request URL with no hops. -/
def followRedirects (doReq : GoStr → Except GoStr HttpResponse)
    (resolveURL : GoStr → GoStr → Option GoStr) (maxRedirects : Int)
    (u : GoStr) : RedirectOutcome :=
  let m : Nat := if maxRedirects ≤ 0 then 10 else maxRedirects.toNat
  followRedirectsLoop doReq resolveURL (if maxRedirects ≤ 0 then 10 else maxRedirects) m u []

/-- A redirect chain: starting at `u`, the server answers each URL in
`u :: us` with a redirect status in `[300, 400)` carrying a non-empty
`Location` that resolves to the next URL, and answers the last element of
`u :: us`... -- precisely: `Chain doReq resolveURL u us final` says the
request for `u` is followed by the redirect targets `us` in order and the
request for the last URL yields the non-redirect response `final`.  The
chain length (number of `Location`-producing responses) is `us.length`. -/
inductive Chain (doReq : GoStr → Except GoStr HttpResponse)
    (resolveURL : GoStr → GoStr → Option GoStr) :
    GoStr → List GoStr → HttpResponse → Prop
  | final {u : GoStr} {r : HttpResponse} :
      doReq u = .ok r → (r.status < 300 ∨ 400 ≤ r.status) →
      Chain doReq resolveURL u [] r
  | redir {u u' : GoStr} {us : List GoStr} {r final : HttpResponse} :
      doReq u = .ok r → 300 ≤ r.status → r.status < 400 →
      headerGet r.header "Location".toList ≠ [] →
      resolveURL u (headerGet r.header "Location".toList) = some u' →
      Chain doReq resolveURL u' us final →
      Chain doReq resolveURL u (u' :: us) final

end httpclient

namespace httpclient

/-- `timingTracker`'s timestamp fields (timing.go), as monotonic-clock
nanosecond readings; `0` models the zero `time.Time` (`IsZero`). -/
structure TimingTrackerState where
  connectStart : Int
  connectDone : Int
  tlsStart : Int
  tlsDone : Int
  gotFirstByte : Int
  requestStart : Int
  bodyDone : Int
deriving DecidableEq, Repr

/-- `models.TimingData` in integer milliseconds. -/
structure TimingData where
  tcp : Int
  tls : Int
  ttfb : Int
  download : Int
  total : Int
deriving DecidableEq, Repr

/-- Go `time.Duration.Milliseconds()`: nanoseconds divided by 10^6 with
Go integer division (truncation toward zero). -/
def durationMs (d : Int) : Int := Int.tdiv d 1000000

/-- `timingTracker.result` (timing.go): each delta is computed only when
both endpoints are set, and is zero otherwise. -/
def timingResult (t : TimingTrackerState) : TimingData :=
  { tcp :=
      if t.connectStart ≠ 0 ∧ t.connectDone ≠ 0 then
        durationMs (t.connectDone - t.connectStart)
      else 0
    tls :=
      if t.tlsStart ≠ 0 ∧ t.tlsDone ≠ 0 then
        durationMs (t.tlsDone - t.tlsStart)
      else 0
    ttfb :=
      if t.requestStart ≠ 0 ∧ t.gotFirstByte ≠ 0 then
        durationMs (t.gotFirstByte - t.requestStart)
      else 0
    download :=
      if t.gotFirstByte ≠ 0 ∧ t.bodyDone ≠ 0 then
        durationMs (t.bodyDone - t.gotFirstByte)
      else 0
    total :=
      if t.requestStart ≠ 0 ∧ t.bodyDone ≠ 0 then
        durationMs (t.bodyDone - t.requestStart)
      else 0 }

end httpclient

namespace httpclient

/-- `connEntry` (timing.go): one byte-tap record; `elapsed` in
nanoseconds. -/
structure ConnEntry where
  elapsed : Int
  direction : GoStr
  data : List Nat
deriving DecidableEq, Repr

/-- `loggedConn`'s recorded state: creation time and entries. -/
structure LoggedConn where
  start : Int
  entries : List ConnEntry
deriving DecidableEq, Repr

/-- The pre-sort merged list of `mergeConnEntries`: every wrapper's
entries, in wrapper order, each shifted by
`(wrapper.start − first_wrapper.start)`. -/
def mergePreSort (conns : List LoggedConn) : List ConnEntry :=
  match conns with
  | [] => []
  | c0 :: _ =>
    conns.flatMap (fun c =>
      c.entries.map (fun e => { e with elapsed := e.elapsed + (c.start - c0.start) }))

/-- The comparator passed to `sort.Slice` in `mergeConnEntries`. -/
def entryLess (a b : ConnEntry) : Bool := a.elapsed < b.elapsed

/-- Non-decreasing w.r.t. the `sort.Slice` comparator. -/
def sortedByElapsed : List ConnEntry → Bool
  | [] => true
  | [_] => true
  | a :: b :: rest => !entryLess b a && sortedByElapsed (b :: rest)

/-- The contract Go's `sort.Slice` documents for its result: a
permutation of the input that is sorted w.r.t. the comparator.
`sort.Slice` explicitly does *not* guarantee stability. -/
def IsSortSliceOutcome (input output : List ConnEntry) : Prop :=
  List.Perm output input ∧ sortedByElapsed output = true

/-- `mergeConnEntries` (timing.go), parameterized by the sorting routine:
the Go code calls `sort.Slice(merged, less)`, whose outcome is only
constrained by `IsSortSliceOutcome`. -/
def mergeConnEntries (sortSlice : List ConnEntry → List ConnEntry)
    (conns : List LoggedConn) : List ConnEntry :=
  match conns with
  | [] => []
  | _ :: _ => sortSlice (mergePreSort conns)

/-- Stable insertion for the claim-side reference sort: an entry passes
only entries with a strictly smaller adjusted time, so among equal-time
entries the earlier pre-sort entry stays first. -/
def stableInsertEntry (e : ConnEntry) : List ConnEntry → List ConnEntry
  | [] => [e]
  | x :: rest =>
    if entryLess x e then x :: stableInsertEntry e rest
    else e :: x :: rest

/-- The stable sort the spec claims: sorted by adjusted time with
entries of equal adjusted time kept in their pre-sort relative order
(reference implementation: stable insertion sort). -/
def stableSortByElapsed (l : List ConnEntry) : List ConnEntry :=
  l.foldr stableInsertEntry []

end httpclient

namespace httpclient

/-- `models.KeyValuePair`: a key/value pair with an enabled flag (the
id/note fields play no role in the engine). -/
structure KeyValuePair where
  key : GoStr
  value : GoStr
  enabled : Bool
deriving DecidableEq, Repr

/-- Go byte-wise string comparison `<` (on UTF-8 bytes; equals
code-point lexicographic comparison). -/
def lexLtb : GoStr → GoStr → Bool
  | [], [] => false
  | [], _ :: _ => true
  | _ :: _, [] => false
  | a :: as, b :: bs => if a < b then true else if a = b then lexLtb as bs else false

/-- Insertion step of the key sort in `url.Values.Encode`
(`slices.Sort(keys)` — exact order of a correct ascending sort; keys are
unique map keys). -/
def insertSortedKey (k : GoStr) : List GoStr → List GoStr
  | [] => [k]
  | x :: rest => if lexLtb x k then x :: insertSortedKey k rest else k :: x :: rest

/-- Ascending sort of the map keys, as `url.Values.Encode` performs. -/
def sortStrings (ks : List GoStr) : List GoStr := ks.foldr insertSortedKey []

/-- Go `url.Values` (`map[string][]string`) modelled as an association
list with unique keys; `Set` replaces the key's values by the single
given value. -/
def urlValuesSet (vals : List (GoStr × List GoStr)) (k v : GoStr) :
    List (GoStr × List GoStr) :=
  if vals.any (fun e => e.1 = k) then
    vals.map (fun e => if e.1 = k then (k, [v]) else e)
  else vals ++ [(k, [v])]

/-- Values of a key in a `url.Values` (empty when absent). -/
def urlValuesOf (vals : List (GoStr × List GoStr)) (k : GoStr) :
    List GoStr :=
  ((vals.find? (fun e => e.1 = k)).map Prod.snd).getD []

/-- The `urlencoded` branch of `buildBody` (request assembly): walk the
form entries in order, `Set`ting each enabled, non-empty-keyed entry. -/
def buildFormValues (formData : List KeyValuePair) :
    List (GoStr × List GoStr) :=
  formData.foldl
    (fun vals fd =>
      if fd.enabled ∧ fd.key ≠ [] then urlValuesSet vals fd.key fd.value
      else vals) []

/-- UTF-8 bytes of a character. -/
def utf8Bytes (c : Char) : List Nat :=
  let n := c.toNat
  if n < 0x80 then [n]
  else if n < 0x800 then [0xC0 + n / 64, 0x80 + n % 64]
  else if n < 0x10000 then
    [0xE0 + n / 4096, 0x80 + n / 64 % 64, 0x80 + n % 64]
  else
    [0xF0 + n / 262144, 0x80 + n / 4096 % 64, 0x80 + n / 64 % 64,
      0x80 + n % 64]

/-- Bytes Go's `url.QueryEscape` leaves unescaped: ASCII alphanumerics
and `- _ . ~`. -/
def isUnreservedQueryByte (b : Nat) : Bool :=
  (48 ≤ b ∧ b ≤ 57) ∨ (65 ≤ b ∧ b ≤ 90) ∨ (97 ≤ b ∧ b ≤ 122) ∨
    b = 45 ∨ b = 95 ∨ b = 46 ∨ b = 126

/-- Uppercase hex digit. -/
def hexUpperDigit (n : Nat) : Char :=
  if n < 10 then Char.ofNat (48 + n) else Char.ofNat (55 + n)

/-- Go `url.QueryEscape` of one byte: space becomes `+`, unreserved
bytes pass through, everything else is percent-encoded in upper hex. -/
def queryEscapeByte (b : Nat) : GoStr :=
  if b = 32 then ['+']
  else if isUnreservedQueryByte b then [Char.ofNat b]
  else ['%', hexUpperDigit (b / 16), hexUpperDigit (b % 16)]

/-- Go `url.QueryEscape`. -/
def queryEscape (s : GoStr) : GoStr :=
  (s.flatMap utf8Bytes).flatMap queryEscapeByte

/-- The (key, value) emissions of `url.Values.Encode`, in emission
order: keys sorted ascending, then each key's values in slice order. -/
def urlValuesEncodePairs (vals : List (GoStr × List GoStr)) :
    List (GoStr × GoStr) :=
  (sortStrings (vals.map Prod.fst)).flatMap
    (fun k => (urlValuesOf vals k).map (fun v => (k, v)))

/-- `url.Values.Encode`: `escape(k)=escape(v)` pairs joined by `&`. -/
def urlValuesEncode (vals : List (GoStr × List GoStr)) : GoStr :=
  goJoin ['&']
    ((urlValuesEncodePairs vals).map
      (fun p => queryEscape p.1 ++ ['='] ++ queryEscape p.2))

/-- The encoded `urlencoded` request body for a form-data list. -/
def urlencodedBody (formData : List KeyValuePair) : GoStr :=
  urlValuesEncode (buildFormValues formData)

/-- The claim-side "last enabled value": the value of the last enabled,
non-empty-keyed form entry with the given key, if any. -/
def lastEnabledValue (formData : List KeyValuePair) (k : GoStr) :
    Option GoStr :=
  ((formData.filter (fun fd => fd.enabled ∧ fd.key ≠ [])).reverse.find?
    (fun fd => fd.key = k)).map KeyValuePair.value

end httpclient

namespace httpclient

/-- The transport `Client.buildTransport` selects (part of the client in
`src/unnamed/part_010`): the raw `CustomH2Transport` when the TLS config
is `custom` with a non-empty Akamai text that parses, otherwise the
h2-then-h1 fallback transport.  A parse error is swallowed (the code
falls through to the fallback); no error is ever returned. -/
inductive TransportChoice where
  | customH2 (fp : http2fp.ParsedAkamai) (headerOrder : List GoStr)
  | h2ThenH1Fallback
deriving DecidableEq, Repr

/-- `Client.buildTransport`. -/
def buildTransport (preset customAkamai : GoStr)
    (headers : List KeyValuePair) : TransportChoice :=
  if preset = "custom".toList ∧ customAkamai ≠ [] then
    match http2fp.parseAkamaiText customAkamai with
    | .ok parsed =>
      .customH2 parsed
        ((headers.filter (fun h => h.enabled ∧ h.key ≠ [])).map
          KeyValuePair.key)
    | .error _ => .h2ThenH1Fallback
  else .h2ThenH1Fallback

end httpclient

namespace tlsfp

/-- Recognizer for the builder-injected `UtlsGREASEExtension` values. -/
def isInjectedGrease : TLSExtension → Bool
  | .greasePlaceholder => true
  | _ => false

/-- The claim-side removal of the GREASE extensions the builder
injected. -/
def removeInjectedGrease (l : List TLSExtension) : List TLSExtension :=
  l.filter (fun e => ! isInjectedGrease e)

end tlsfp

namespace http2fp

/-- The claim-side regular-header order: the keys of the ordered list
first (each key's values consecutive, names lowercased), then every
remaining request header in the order of the given header enumeration
`hs`. -/
def claimedRegularHeaders (horder : List GoStr)
    (hs : List (GoStr × List GoStr)) : List HeaderField :=
  horder.flatMap (orderFieldsOf hs) ++
  (hs.filter (fun e => ! (horder.map canonicalHeaderKey).contains e.1)).flatMap
    (fun e => emitKey e.1 e.2)

end http2fp

namespace httpclient

/-- First value of a key among emitted (key, value) pairs. -/
def pairsValue (pairs : List (GoStr × GoStr)) (k : GoStr) : Option GoStr :=
  (pairs.find? (fun p => p.1 = k)).map Prod.snd

end httpclient

namespace httpclient

/-- A concrete two-URL server for exercising the redirect driver:
`http://a/` answers `302` with `Location: http://b/`, anything else
answers `200 OK`. -/
def chainServer (u : GoStr) : Except GoStr HttpResponse :=
  if u = "http://a/".toList then
    .ok ⟨302, "302 Found".toList, [("Location".toList, ["http://b/".toList])]⟩
  else .ok ⟨200, "200 OK".toList, []⟩

/-- A resolver for absolute `Location` values. -/
def chainResolve (_u loc : GoStr) : Option GoStr := some loc

end httpclient

namespace http2fp

theorem goParseUintDec_lt {bits : Nat} {s : GoStr} {n : Nat}
    (h : goParseUintDec bits s = some n) : n < 2 ^ bits := by
  unfold goParseUintDec at h
  split at h
  · simp at h
  · split at h
    · dsimp only at h
      split at h
      · cases h; assumption
      · simp at h
    · simp at h

theorem parseSettingPair_bounds {pair : GoStr} {s : Setting}
    (h : parseSettingPair pair = some s) : s.id < 2 ^ 16 ∧ s.val < 2 ^ 32 := by
  unfold parseSettingPair at h
  split at h
  case h_1 k v heq =>
    split at h
    case h_1 i w hk hv =>
      cases h
      exact ⟨goParseUintDec_lt hk, goParseUintDec_lt hv⟩
    case h_2 => simp at h
  case h_2 => simp at h

theorem settings_map_id (ss : List Setting) :
    ss.map (fun s => Setting.mk s.id s.val) = ss := by
  simp

theorem decode_settingsFramePayload (ss : List Setting)
    (hb : ∀ s ∈ ss, s.id < 2 ^ 16 ∧ s.val < 2 ^ 32) :
    decodeSettingsPayload (settingsFramePayload ss) = ss := by
  induction ss with
  | nil => rfl
  | cons s rest ih =>
    have hs := hb s (by simp)
    have hrest : ∀ x ∈ rest, x.id < 2 ^ 16 ∧ x.val < 2 ^ 32 :=
      fun x hx => hb x (by simp [hx])
    have hid : s.id < 2 ^ 16 := hs.1
    have hval : s.val < 2 ^ 32 := hs.2
    show decodeSettingsPayload
        (putUint16be s.id ++ putUint32be s.val ++ settingsFramePayload rest)
      = s :: rest
    have : putUint16be s.id ++ putUint32be s.val ++ settingsFramePayload rest
        = s.id / 2 ^ 8 % 2 ^ 8 :: s.id % 2 ^ 8 :: s.val / 2 ^ 24 % 2 ^ 8 ::
          s.val / 2 ^ 16 % 2 ^ 8 :: s.val / 2 ^ 8 % 2 ^ 8 :: s.val % 2 ^ 8 ::
          settingsFramePayload rest := by
      simp [putUint16be, putUint32be]
    rw [this]
    show Setting.mk
        (s.id / 2 ^ 8 % 2 ^ 8 * 2 ^ 8 + s.id % 2 ^ 8)
        (((s.val / 2 ^ 24 % 2 ^ 8 * 2 ^ 8 + s.val / 2 ^ 16 % 2 ^ 8) * 2 ^ 8 +
            s.val / 2 ^ 8 % 2 ^ 8) * 2 ^ 8 + s.val % 2 ^ 8) ::
        decodeSettingsPayload (settingsFramePayload rest) = s :: rest
    rw [ih hrest]
    have hid' : s.id / 2 ^ 8 % 2 ^ 8 * 2 ^ 8 + s.id % 2 ^ 8 = s.id := by
      norm_num at hid ⊢
      omega
    have hval' : ((s.val / 2 ^ 24 % 2 ^ 8 * 2 ^ 8 + s.val / 2 ^ 16 % 2 ^ 8) *
          2 ^ 8 + s.val / 2 ^ 8 % 2 ^ 8) * 2 ^ 8 + s.val % 2 ^ 8 = s.val := by
      norm_num at hval ⊢
      omega
    rw [hid', hval']

theorem parseAkamaiText_settings_eq_textPairs {akamai : GoStr}
    {a : ParsedAkamai} (h : parseAkamaiText akamai = .ok a) :
    a.settings = textSettingPairs akamai := by
  unfold parseAkamaiText at h
  split at h
  · simp at h
  · cases h
    unfold textSettingPairs
    by_cases hp0 : (goSplit '|' akamai).headD [] = []
    · simp [hp0]
    · simp [hp0]

end http2fp

/-- C1: for every parsed Akamai fingerprint `a` supplied as a custom TLS
config, the first frame `CustomH2Transport.RoundTrip` writes (after the
preface) is a SETTINGS frame whose payload holds exactly
`a.settings.length` parameters — 6 bytes each — which decode back to the
same ids and values, in the same order, as the setting pairs appearing in
the Akamai text. -/
theorem C1_settings_frame_order (akamai : GoStr) (a : http2fp.ParsedAkamai)
    (h : http2fp.parseAkamaiText akamai = .ok a)
    (horder : List GoStr) (method host scheme path : GoStr)
    (hdr : List (GoStr × List GoStr)) (hasBody : Bool)
    (bodyFrames : List http2fp.H2Frame) :
    (http2fp.roundTripWrittenFrames a horder method host scheme path hdr
        hasBody bodyFrames).head? =
      some (http2fp.H2Frame.settings a.settings) ∧
    (http2fp.settingsFramePayload a.settings).length = 6 * a.settings.length ∧
    http2fp.decodeSettingsPayload (http2fp.settingsFramePayload a.settings) =
      a.settings ∧
    a.settings = http2fp.textSettingPairs akamai := by
  have hpairs : a.settings = http2fp.textSettingPairs akamai :=
    http2fp.parseAkamaiText_settings_eq_textPairs h
  have hbound : ∀ s ∈ a.settings, s.id < 2 ^ 16 ∧ s.val < 2 ^ 32 := by
    intro s hs
    rw [hpairs] at hs
    unfold http2fp.textSettingPairs at hs
    dsimp only at hs
    split at hs
    · simp at hs
    · obtain ⟨pair, _, hpair⟩ := List.mem_filterMap.mp hs
      exact http2fp.parseSettingPair_bounds hpair
  refine ⟨?_, ?_, ?_, hpairs⟩
  · show some (http2fp.H2Frame.settings
        (a.settings.map (fun s => ⟨s.id, s.val⟩))) = _
    rw [http2fp.settings_map_id]
  · have hlen : ∀ ss : List http2fp.Setting,
        (http2fp.settingsFramePayload ss).length = 6 * ss.length := by
      intro ss
      induction ss with
      | nil => rfl
      | cons s r ih =>
        simp [http2fp.settingsFramePayload, http2fp.putUint16be,
          http2fp.putUint32be] at ih ⊢
        omega
    exact hlen a.settings
  · exact http2fp.decode_settingsFramePayload a.settings hbound

/-- Witness for C1 at the Akamai text `1:65536;2:0`. -/
theorem C1_settings_frame_order_witness :
    (http2fp.roundTripWrittenFrames ⟨[⟨1, 65536⟩, ⟨2, 0⟩], 0, [], []⟩ []
        "GET".toList "example.com".toList "https".toList "/".toList []
        false []).head? =
      some (http2fp.H2Frame.settings [⟨1, 65536⟩, ⟨2, 0⟩]) ∧
    (http2fp.settingsFramePayload
        (http2fp.ParsedAkamai.mk [⟨1, 65536⟩, ⟨2, 0⟩] 0 [] []).settings).length =
      6 * (http2fp.ParsedAkamai.mk [⟨1, 65536⟩, ⟨2, 0⟩] 0 [] []).settings.length ∧
    http2fp.decodeSettingsPayload
        (http2fp.settingsFramePayload
          (http2fp.ParsedAkamai.mk [⟨1, 65536⟩, ⟨2, 0⟩] 0 [] []).settings) =
      (http2fp.ParsedAkamai.mk [⟨1, 65536⟩, ⟨2, 0⟩] 0 [] []).settings ∧
    (http2fp.ParsedAkamai.mk [⟨1, 65536⟩, ⟨2, 0⟩] 0 [] []).settings =
      http2fp.textSettingPairs "1:65536;2:0".toList :=
  C1_settings_frame_order "1:65536;2:0".toList
    ⟨[⟨1, 65536⟩, ⟨2, 0⟩], 0, [], []⟩ rfl [] "GET".toList
    "example.com".toList "https".toList "/".toList [] false []

namespace tlsfp

theorem extensionOfID_ne_grease {parsed : ParsedJA3} {extID : Nat}
    {e : TLSExtension} (h : extensionOfID parsed extID = some e) :
    isInjectedGrease e = false := by
  unfold extensionOfID at h
  split at h
  all_goals try (injection h with h2; subst h2; rfl)
  split at h
  · exact absurd h (by simp)
  · injection h with h2; subst h2; rfl

theorem extensionOfID_eq_none {parsed : ParsedJA3} {extID : Nat}
    (h : extensionOfID parsed extID = none) : isGREASE extID = true := by
  unfold extensionOfID at h
  split at h
  all_goals simp_all

theorem extensionOfID_isSome (parsed : ParsedJA3) {extID : Nat}
    (h : isGREASE extID = false) :
    (extensionOfID parsed extID).isSome = true := by
  cases hE : extensionOfID parsed extID with
  | none => rw [extensionOfID_eq_none hE] at h; exact absurd h (by simp)
  | some e => rfl

theorem filterMap_extensionOfID_eq_map (parsed : ParsedJA3) :
    ∀ l : List Nat, (∀ x ∈ l, isGREASE x = false) →
      l.filterMap (extensionOfID parsed) =
        l.map (claimedExtensionForID parsed)
  | [], _ => rfl
  | x :: rest, h => by
    have hx := h x (by simp)
    obtain ⟨e, he⟩ :=
      Option.isSome_iff_exists.mp (extensionOfID_isSome parsed hx)
    rw [List.filterMap_cons, List.map_cons, he]
    rw [filterMap_extensionOfID_eq_map parsed rest
      (fun y hy => h y (by simp [hy]))]
    unfold claimedExtensionForID
    rw [he]
    rfl

theorem mapExtensionIDs_no_injected (parsed : ParsedJA3) :
    ∀ e ∈ mapExtensionIDs parsed, isInjectedGrease e = false := by
  intro e he
  unfold mapExtensionIDs at he
  obtain ⟨x, _, hx⟩ := List.mem_filterMap.mp he
  exact extensionOfID_ne_grease hx

theorem removeInjectedGrease_build (l : List TLSExtension)
    (h : ∀ e ∈ l, isInjectedGrease e = false) :
    removeInjectedGrease
      (.greasePlaceholder :: l ++ [.greasePlaceholder]) = l := by
  have h1 : l.filter (fun e => ! isInjectedGrease e) = l := by
    apply List.filter_eq_self.mpr
    intro a ha
    show (! isInjectedGrease a) = true
    rw [h a ha]
    rfl
  show List.filter (fun e => ! isInjectedGrease e)
      (TLSExtension.greasePlaceholder :: l ++ [TLSExtension.greasePlaceholder])
    = l
  simp only [List.filter_cons, List.filter_append, h1]
  simp [isInjectedGrease]

end tlsfp

/-- C2: for every custom JA3 string `j` that parses and lists no GREASE
extension ids, the extension list `BuildSpecFromJA3` produces — after
undoing the (externally supplied, invertible) Chrome 106+ shuffle and
removing the two GREASE extensions the builder injected — equals `j`'s
extension-id list with each id mapped to its typed extension from the
fixed table, unknown non-GREASE ids kept as opaque placeholders in their
original positions. -/
theorem C2_ja3_extension_mapping (j : GoStr) (parsed : tlsfp.ParsedJA3)
    (hparse : tlsfp.parseJA3Text j = .ok parsed)
    (hnog : ∀ x ∈ parsed.extensions, tlsfp.isGREASE x = false)
    (shuffle unshuffle : List tlsfp.TLSExtension → List tlsfp.TLSExtension)
    (hinv : unshuffle (shuffle (tlsfp.buildExtensionList parsed)) =
      tlsfp.buildExtensionList parsed) :
    tlsfp.removeInjectedGrease
        (unshuffle ((tlsfp.buildSpecFromJA3 shuffle parsed).extensions)) =
      parsed.extensions.map (tlsfp.claimedExtensionForID parsed) := by
  show tlsfp.removeInjectedGrease
      (unshuffle (shuffle (tlsfp.buildExtensionList parsed))) = _
  rw [hinv]
  unfold tlsfp.buildExtensionList
  rw [tlsfp.removeInjectedGrease_build _ (tlsfp.mapExtensionIDs_no_injected parsed)]
  exact tlsfp.filterMap_extensionOfID_eq_map parsed parsed.extensions hnog

/-- Witness for C2 at the JA3 text
`771,4865-4866,0-23-65281-10-11-35-16-13-43-45-51,29-23-24,0` with the
identity shuffle. -/
theorem C2_ja3_extension_mapping_witness :
    tlsfp.removeInjectedGrease
        (id ((tlsfp.buildSpecFromJA3 id
          ⟨771, [4865, 4866], [0, 23, 65281, 10, 11, 35, 16, 13, 43, 45, 51],
            [29, 23, 24], [0]⟩).extensions)) =
      (tlsfp.ParsedJA3.mk 771 [4865, 4866]
          [0, 23, 65281, 10, 11, 35, 16, 13, 43, 45, 51] [29, 23, 24]
          [0]).extensions.map
        (tlsfp.claimedExtensionForID
          ⟨771, [4865, 4866], [0, 23, 65281, 10, 11, 35, 16, 13, 43, 45, 51],
            [29, 23, 24], [0]⟩) :=
  C2_ja3_extension_mapping
    "771,4865-4866,0-23-65281-10-11-35-16-13-43-45-51,29-23-24,0".toList
    ⟨771, [4865, 4866], [0, 23, 65281, 10, 11, 35, 16, 13, 43, 45, 51],
      [29, 23, 24], [0]⟩
    rfl (by decide) id id rfl

namespace http2fp

theorem encodeOrderFold (hdr : List (GoStr × List GoStr)) (H : List GoStr) :
    ∀ acc : List HeaderField × List GoStr,
      H.foldl (encodeOrderStep hdr) acc =
        (acc.1 ++ H.flatMap (orderFieldsOf hdr),
          acc.2 ++ H.filterMap (writtenKeyOf hdr)) := by
  induction H with
  | nil => intro acc; simp
  | cons k ks ih =>
    intro acc
    rw [List.foldl_cons, ih]
    unfold encodeOrderStep orderFieldsOf writtenKeyOf
    cases hL : hdrLookup hdr (canonicalHeaderKey k) with
    | none => simp [hL]
    | some vals => simp [hL]

theorem hdrLookup_isSome_of_mem {hdr : List (GoStr × List GoStr)}
    {e : GoStr × List GoStr} (he : e ∈ hdr) :
    (hdrLookup hdr e.1).isSome = true := by
  unfold hdrLookup
  cases hf : hdr.find? (fun x => decide (x.1 = e.1)) with
  | none =>
    exfalso
    have h1 := List.find?_eq_none.mp hf e he
    simp at h1
  | some v => rfl

theorem writtenKeys_mem (hdr : List (GoStr × List GoStr)) (H : List GoStr)
    {e : GoStr × List GoStr} (he : e ∈ hdr) :
    (H.filterMap (writtenKeyOf hdr)).contains e.1 =
      (H.map canonicalHeaderKey).contains e.1 := by
  induction H with
  | nil => rfl
  | cons k ks ih =>
    rw [List.filterMap_cons, List.map_cons]
    cases hL : writtenKeyOf hdr k with
    | some c =>
      have hc : c = canonicalHeaderKey k := by
        unfold writtenKeyOf at hL
        cases h2 : hdrLookup hdr (canonicalHeaderKey k) with
        | none => rw [h2] at hL; exact absurd hL (by simp)
        | some vals => rw [h2] at hL; injection hL with h3; exact h3.symm
      subst hc
      show (canonicalHeaderKey k :: ks.filterMap (writtenKeyOf hdr)).contains
          e.1 = _
      rw [List.contains_cons, List.contains_cons, ih]
    | none =>
      have hne : e.1 ≠ canonicalHeaderKey k := by
        intro heq
        unfold writtenKeyOf at hL
        cases h2 : hdrLookup hdr (canonicalHeaderKey k) with
        | some vals => rw [h2] at hL; exact absurd hL (by simp)
        | none =>
          rw [← heq] at h2
          have := hdrLookup_isSome_of_mem he
          rw [h2] at this
          exact absurd this (by simp)
      show (ks.filterMap (writtenKeyOf hdr)).contains e.1 = _
      rw [List.contains_cons, ih]
      have hb : (e.1 == canonicalHeaderKey k) = false :=
        beq_eq_false_iff_ne.mpr hne
      rw [hb, Bool.false_or]

/-- C3 counterexample: the claim asserts the remaining (not-ordered)
headers are emitted in the request's insertion order, but the Go code
iterates the `http.Header` map, whose enumeration order is unspecified:
with insertion order `X-First, A, B` and the (legitimate) map enumeration
`X-First, B, A`, the encoder's output differs from the claimed order. -/
theorem C3_header_order_counterexample :
    List.Perm
      [("X-First".toList, ["v".toList]), ("B".toList, ["2".toList]),
        ("A".toList, ["1".toList])]
      [("X-First".toList, ["v".toList]), ("A".toList, ["1".toList]),
        ("B".toList, ["2".toList])] ∧
    http2fp.encodeRegularHeaders ["X-First".toList]
        [("X-First".toList, ["v".toList]), ("B".toList, ["2".toList]),
          ("A".toList, ["1".toList])] ≠
      http2fp.claimedRegularHeaders ["X-First".toList]
        [("X-First".toList, ["v".toList]), ("A".toList, ["1".toList]),
          ("B".toList, ["2".toList])] := by
  constructor
  · exact List.Perm.cons _ (List.Perm.swap _ _ _)
  · decide

/-- C3 amended: for every request executed through the custom HTTP/2
transport with a non-empty ordered header-key list `H`, the non-pseudo
header fields are the keys of `H` (those present) in `H`'s order, each
key's values consecutive with the name lowercased, followed by every
remaining request header not named in `H` in the order the Go runtime
enumerates the header map — which need not be the insertion order. -/
theorem C3_header_order_amended (H : List GoStr)
    (hdr : List (GoStr × List GoStr)) (hne : H.length > 0) :
    http2fp.encodeRegularHeaders H hdr =
      http2fp.claimedRegularHeaders H hdr := by
  unfold http2fp.encodeRegularHeaders
  rw [if_pos hne]
  rw [http2fp.encodeOrderFold]
  show [] ++ H.flatMap (http2fp.orderFieldsOf hdr) ++ _ = _
  unfold http2fp.claimedRegularHeaders
  rw [List.nil_append]
  congr 1
  congr 1
  apply List.filter_congr
  intro e he
  show (! ([] ++ H.filterMap (http2fp.writtenKeyOf hdr)).contains e.1) = _
  rw [List.nil_append, http2fp.writtenKeys_mem hdr H he]

end http2fp

/-- Witness for the amended C3 at a concrete ordered list and header
map. -/
theorem C3_header_order_amended_witness :
    http2fp.encodeRegularHeaders ["X-First".toList]
        [("X-First".toList, ["v".toList]), ("B".toList, ["2".toList]),
          ("A".toList, ["1".toList])] =
      http2fp.claimedRegularHeaders ["X-First".toList]
        [("X-First".toList, ["v".toList]), ("B".toList, ["2".toList]),
          ("A".toList, ["1".toList])] :=
  http2fp.C3_header_order_amended ["X-First".toList]
    [("X-First".toList, ["v".toList]), ("B".toList, ["2".toList]),
      ("A".toList, ["1".toList])] (by decide)

namespace http2fp

theorem readLoop_data_ok (ps : List (List Nat)) :
    ∀ (resp : H2Response) (bodyBuf : List Nat),
      bodyBuf.length + ps.join.length ≤ maxResponseBodySize →
      readResponseLoop 1 (ps.map (fun p => RecvFrame.data 1 p false))
          resp bodyBuf true = .ok { resp with body := bodyBuf ++ ps.join } := by
  induction ps with
  | nil =>
    intro resp bodyBuf hle
    show readResponseLoop 1 [] resp bodyBuf true = _
    unfold readResponseLoop
    simp
  | cons p ps ih =>
    intro resp bodyBuf hle
    show readResponseLoop 1 (RecvFrame.data 1 p false ::
      ps.map (fun p => RecvFrame.data 1 p false)) resp bodyBuf true = _
    unfold readResponseLoop
    dsimp only
    have h1 : ¬ ((1 : Nat) ≠ 1) := by omega
    have h2 : ¬ (bodyBuf.length + p.length > maxResponseBodySize) := by
      have : (p :: ps).join.length = p.length + ps.join.length := by
        simp
      omega
    rw [if_neg h1, if_neg h2]
    show readResponseLoop 1 (ps.map (fun p => RecvFrame.data 1 p false))
      resp (bodyBuf ++ p) true = _
    rw [ih resp (bodyBuf ++ p) (by simp at hle ⊢; omega)]
    have : bodyBuf ++ p ++ ps.join = bodyBuf ++ (p :: ps).join := by
      simp
    rw [this]

theorem readLoop_data_overflow (ps : List (List Nat)) :
    ∀ (resp : H2Response) (bodyBuf : List Nat),
      bodyBuf.length ≤ maxResponseBodySize →
      bodyBuf.length + ps.join.length > maxResponseBodySize →
      readResponseLoop 1 (ps.map (fun p => RecvFrame.data 1 p false))
          resp bodyBuf true = .error "response body exceeds limit".toList := by
  induction ps with
  | nil =>
    intro resp bodyBuf hinv hgt
    simp at hgt
    omega
  | cons p ps ih =>
    intro resp bodyBuf hinv hgt
    show readResponseLoop 1 (RecvFrame.data 1 p false ::
      ps.map (fun p => RecvFrame.data 1 p false)) resp bodyBuf true = _
    unfold readResponseLoop
    dsimp only
    have h1 : ¬ ((1 : Nat) ≠ 1) := by omega
    rw [if_neg h1]
    by_cases h2 : bodyBuf.length + p.length > maxResponseBodySize
    · rw [if_pos h2]
    · rw [if_neg h2]
      show readResponseLoop 1 (ps.map (fun p => RecvFrame.data 1 p false))
        resp (bodyBuf ++ p) true = _
      exact ih resp (bodyBuf ++ p) (by simp; omega)
        (by simp at hgt ⊢; omega)

end http2fp

/-- C4 counterexample: on the HTTP/1.1 / standard HTTP/2
response-assembly path (`parseResponse`), a body one byte over 100 MiB
does **not** fail the request: `io.ReadAll(io.LimitReader(..))` returns
success with the body silently truncated to exactly 100 MiB. -/
theorem C4_body_limit_counterexample :
    httpclient.parseResponseBodyRead
        (List.replicate (http2fp.maxResponseBodySize + 1) 0) =
      .ok (List.replicate http2fp.maxResponseBodySize 0) ∧
    (List.replicate (http2fp.maxResponseBodySize + 1) (0 : Nat)).length ≠
      (List.replicate http2fp.maxResponseBodySize (0 : Nat)).length := by
  constructor
  · show Except.ok (httpclient.limitReadAll _) = _
    unfold httpclient.limitReadAll
    rw [List.take_replicate]
    have : min http2fp.maxResponseBodySize (http2fp.maxResponseBodySize + 1) =
        http2fp.maxResponseBodySize := by omega
    rw [this]
  · simp

/-- C4 amended: on the custom HTTP/2 read loop a response body succeeds
iff it is at most 100 MiB — exactly 100 MiB succeeds, one byte more
fails with an error; on the HTTP/1.1 / standard HTTP/2 response-assembly
path the body read never fails on size: it silently truncates the body
to the first 100 MiB. -/
theorem C4_body_limit_amended :
    (∀ (ps : List (List Nat)) (fields : List http2fp.HeaderField),
      http2fp.readResponse 1
          (http2fp.RecvFrame.headers 1 fields false ::
            ps.map (fun p => http2fp.RecvFrame.data 1 p false)) =
        (if ps.join.length ≤ http2fp.maxResponseBodySize then
          .ok { fields.foldl http2fp.applyHeaderField ⟨0, [], [], []⟩ with
                  body := ps.join }
         else .error "response body exceeds limit".toList)) ∧
    (∀ body : List Nat,
      httpclient.parseResponseBodyRead body =
        .ok (body.take http2fp.maxResponseBodySize)) := by
  constructor
  · intro ps fields
    show http2fp.readResponseLoop 1 _ ⟨0, [], [], []⟩ [] false = _
    unfold http2fp.readResponseLoop
    dsimp only
    have h1 : ¬ ((1 : Nat) ≠ 1) := by omega
    rw [if_neg h1]
    show (if false = true then _
      else http2fp.readResponseLoop 1
        (ps.map (fun p => http2fp.RecvFrame.data 1 p false))
        (fields.foldl http2fp.applyHeaderField ⟨0, [], [], []⟩) [] true) = _
    rw [if_neg (by simp)]
    by_cases hle : ps.join.length ≤ http2fp.maxResponseBodySize
    · rw [if_pos hle]
      rw [http2fp.readLoop_data_ok ps _ [] (by simpa using hle)]
      rw [List.nil_append]
    · rw [if_neg hle]
      exact http2fp.readLoop_data_overflow ps _ []
        (by simp [http2fp.maxResponseBodySize])
        (by simp only [List.length_nil, Nat.zero_add]; omega)
  · intro body
    rfl

namespace httpclient

theorem followLoop_chain {doReq : GoStr → Except GoStr HttpResponse}
    {resolveURL : GoStr → GoStr → Option GoStr} (maxR : Int)
    {u : GoStr} {us : List GoStr} {final : HttpResponse}
    (hc : Chain doReq resolveURL u us final) :
    ∀ (n : Nat) (hops : List RedirectHop), us.length < n →
      ∃ newHops,
        followRedirectsLoop doReq resolveURL maxR n u hops =
          .success (hops ++ newHops) final ∧
        newHops.length = us.length ∧
        newHops.map RedirectHop.url = (u :: us).dropLast := by
  induction hc with
  | @final u r hok hstat =>
    intro n hops hn
    obtain ⟨m, rfl⟩ : ∃ m, n = m + 1 := ⟨n - 1, by omega⟩
    refine ⟨[], ?_, rfl, rfl⟩
    show followRedirectsLoop doReq resolveURL maxR (m + 1) u hops = _
    unfold followRedirectsLoop
    rw [hok]
    dsimp only
    rw [if_pos hstat]
    rw [List.append_nil]
  | @redir u u' us r fin hok h300 h400 hloc hres hchain ih =>
    intro n hops hn
    obtain ⟨m, rfl⟩ : ∃ m, n = m + 1 := ⟨n - 1, by omega⟩
    have hm : us.length < m := by simp at hn; omega
    obtain ⟨nh, h1, h2, h3⟩ := ih m
      (hops ++ [⟨u, r.status, r.statusText, flattenHeaders r.header⟩]) hm
    refine ⟨⟨u, r.status, r.statusText, flattenHeaders r.header⟩ :: nh,
      ?_, by simp [h2], ?_⟩
    · show followRedirectsLoop doReq resolveURL maxR (m + 1) u hops = _
      unfold followRedirectsLoop
      rw [hok]
      dsimp only
      rw [if_neg (by omega)]
      rw [if_neg hloc]
      rw [hres]
      dsimp only
      rw [h1]
      rw [List.append_assoc]
      rfl
    · rw [List.map_cons, h3]
      show u :: (u' :: us).dropLast = _
      rw [List.dropLast_cons₂]

end httpclient

/-- C5 amended: for every redirect chain of `k` redirecting responses
followed by a final non-redirect response, with
`k < max_redirects` (`max_redirects` defaulting to 10 when a
non-positive value is given), `followRedirects` returns the final
response together with exactly `k` hop records, and `hops[i].url` is the
URL of the request that produced the i-th `Location` header.  (At
`k = max_redirects` the loop exhausts its iterations before fetching the
final response and fails with "too many redirects", so the claim's
`k ≤ max_redirects` bound is off by one.) -/
theorem C5_redirect_chain_amended
    (doReq : GoStr → Except GoStr httpclient.HttpResponse)
    (resolveURL : GoStr → GoStr → Option GoStr) (maxRedirects : Int)
    (u : GoStr) (us : List GoStr) (final : httpclient.HttpResponse)
    (hchain : httpclient.Chain doReq resolveURL u us final)
    (hk : (us.length : Int) <
      (if maxRedirects ≤ 0 then 10 else maxRedirects)) :
    ∃ hops,
      httpclient.followRedirects doReq resolveURL maxRedirects u =
        .success hops final ∧
      hops.length = us.length ∧
      hops.map httpclient.RedirectHop.url = (u :: us).dropLast := by
  unfold httpclient.followRedirects
  have hn : us.length <
      (if maxRedirects ≤ 0 then 10 else maxRedirects.toNat) := by
    by_cases hle : maxRedirects ≤ 0
    · rw [if_pos hle]
      rw [if_pos hle] at hk
      omega
    · rw [if_neg hle]
      rw [if_neg hle] at hk
      omega
  obtain ⟨nh, h1, h2, h3⟩ :=
    httpclient.followLoop_chain
      (if maxRedirects ≤ 0 then 10 else maxRedirects) hchain
      (if maxRedirects ≤ 0 then 10 else maxRedirects.toNat) [] hn
  exact ⟨nh, by rw [h1]; rw [List.nil_append], h2, h3⟩

/-- Witness for the amended C5: a one-hop chain under the default cap. -/
theorem C5_redirect_chain_amended_witness :
    ∃ hops,
      httpclient.followRedirects httpclient.chainServer
        httpclient.chainResolve 0 "http://a/".toList =
        .success hops ⟨200, "200 OK".toList, []⟩ ∧
      hops.length = ["http://b/".toList].length ∧
      hops.map httpclient.RedirectHop.url =
        ("http://a/".toList :: ["http://b/".toList]).dropLast :=
  C5_redirect_chain_amended httpclient.chainServer httpclient.chainResolve 0
    "http://a/".toList ["http://b/".toList] ⟨200, "200 OK".toList, []⟩
    (@httpclient.Chain.redir httpclient.chainServer httpclient.chainResolve
      "http://a/".toList "http://b/".toList []
      ⟨302, "302 Found".toList, [("Location".toList, ["http://b/".toList])]⟩
      ⟨200, "200 OK".toList, []⟩
      rfl (by decide) (by decide) (by decide) rfl
      (@httpclient.Chain.final httpclient.chainServer httpclient.chainResolve
        "http://b/".toList ⟨200, "200 OK".toList, []⟩ rfl (by decide)))
    (by decide)

/-- C5 counterexample: a redirect chain of length `k = 1` with
`max_redirects = 1` — so `k ≤ max_redirects` as the claim requires — but
`followRedirects` fails with "too many redirects" instead of returning
the final response with one hop: the loop's `i < maxRedirects` bound
leaves no iteration for the final response. -/
theorem C5_redirect_cap_counterexample :
    httpclient.Chain httpclient.chainServer httpclient.chainResolve
      "http://a/".toList ["http://b/".toList] ⟨200, "200 OK".toList, []⟩ ∧
    httpclient.followRedirects httpclient.chainServer
      httpclient.chainResolve 1 "http://a/".toList =
      .failure
        [⟨"http://a/".toList, 302, "302 Found".toList,
          [("Location".toList, "http://b/".toList)]⟩]
        "too many redirects".toList := by
  constructor
  · exact @httpclient.Chain.redir httpclient.chainServer
      httpclient.chainResolve "http://a/".toList "http://b/".toList []
      ⟨302, "302 Found".toList, [("Location".toList, ["http://b/".toList])]⟩
      ⟨200, "200 OK".toList, []⟩
      rfl (by decide) (by decide) (by decide) rfl
      (@httpclient.Chain.final httpclient.chainServer
        httpclient.chainResolve "http://b/".toList
        ⟨200, "200 OK".toList, []⟩ rfl (by decide))
  · decide

/-- C6 counterexample: the malformed, non-empty Akamai text `@@@@`
produces no ConfigError: `ParseAkamaiText` succeeds (with everything
defaulted) and `buildTransport` selects the custom HTTP/2 transport, so
the request proceeds and a response can be returned. -/
theorem C6_config_error_counterexample :
    http2fp.parseAkamaiText "@@@@".toList = .ok ⟨[], 0, [], []⟩ ∧
    httpclient.buildTransport "custom".toList "@@@@".toList [] =
      .customH2 ⟨[], 0, [], []⟩ [] :=
  ⟨rfl, rfl⟩

/-- C6 amended: a request whose custom TLS config carries a malformed
(non-empty but ungrammatical) Akamai text does **not** fail with a
ConfigError: `ParseAkamaiText` succeeds on every non-empty input,
silently skipping ungrammatical components (it errors only on the empty
string), and `buildTransport` selects the custom HTTP/2 transport built
from whatever parsed; a parse error, were one possible, would be
swallowed by falling back to the standard transport rather than surfaced
to the caller. -/
theorem C6_akamai_malformed_no_error (s : GoStr) (h : s ≠ [])
    (headers : List httpclient.KeyValuePair) :
    ∃ a, http2fp.parseAkamaiText s = .ok a ∧
      httpclient.buildTransport "custom".toList s headers =
        .customH2 a
          ((headers.filter (fun e => e.enabled ∧ e.key ≠ [])).map
            httpclient.KeyValuePair.key) := by
  have ha : ∃ a, http2fp.parseAkamaiText s = .ok a := by
    unfold http2fp.parseAkamaiText
    rw [if_neg h]
    exact ⟨_, rfl⟩
  obtain ⟨a, ha⟩ := ha
  refine ⟨a, ha, ?_⟩
  unfold httpclient.buildTransport
  rw [if_pos (And.intro rfl h)]
  rw [ha]

/-- Witness for the amended C6 at the malformed text `@@@@`. -/
theorem C6_akamai_malformed_no_error_witness :
    ∃ a, http2fp.parseAkamaiText "@@@@".toList = .ok a ∧
      httpclient.buildTransport "custom".toList "@@@@".toList [] =
        .customH2 a
          ((List.filter (fun e => e.enabled ∧ e.key ≠ []) []).map
            httpclient.KeyValuePair.key) :=
  C6_akamai_malformed_no_error "@@@@".toList (by decide) []

/-- C7 (code bug): `mergeConnEntries` shifts each wrapper's entries by
`(wrapper.start − first_wrapper.start)` as claimed, but then sorts them
with Go's `sort.Slice`, which is documented **not** to be stable.  For
two wrappers whose entries land on the same adjusted time (5 ns), both
orders of the two entries satisfy everything `sort.Slice` guarantees
(sorted permutation), and one of them violates the claimed stability —
so the code does not guarantee the claim; `sort.SliceStable` would. -/
theorem C7_merge_stability_bug :
    httpclient.mergePreSort
        [⟨0, [⟨5, "send".toList, [1]⟩]⟩, ⟨5, [⟨0, "recv".toList, [2]⟩]⟩] =
      [⟨5, "send".toList, [1]⟩, ⟨5, "recv".toList, [2]⟩] ∧
    httpclient.IsSortSliceOutcome
      [⟨5, "send".toList, [1]⟩, ⟨5, "recv".toList, [2]⟩]
      [⟨5, "recv".toList, [2]⟩, ⟨5, "send".toList, [1]⟩] ∧
    httpclient.mergeConnEntries
        (fun _ => [⟨5, "recv".toList, [2]⟩, ⟨5, "send".toList, [1]⟩])
        [⟨0, [⟨5, "send".toList, [1]⟩]⟩, ⟨5, [⟨0, "recv".toList, [2]⟩]⟩] =
      [⟨5, "recv".toList, [2]⟩, ⟨5, "send".toList, [1]⟩] ∧
    [⟨5, "recv".toList, [2]⟩, ⟨5, "send".toList, [1]⟩] ≠
      httpclient.stableSortByElapsed
        [⟨5, "send".toList, [1]⟩, ⟨5, "recv".toList, [2]⟩] := by
  refine ⟨by decide, ⟨List.Perm.swap _ _ _, by decide⟩, rfl, by decide⟩

namespace httpclient

theorem tdiv_add_le_tdiv {a b : Int} (ha : 0 ≤ a) (hb : 0 ≤ b) :
    Int.tdiv a 1000000 + Int.tdiv b 1000000 ≤ Int.tdiv (a + b) 1000000 := by
  obtain ⟨m, rfl⟩ := Int.eq_ofNat_of_zero_le ha
  obtain ⟨n, rfl⟩ := Int.eq_ofNat_of_zero_le hb
  have h3 : ((m : Int) + n) = ((m + n : Nat) : Int) := by push_cast; ring
  rw [h3]
  show ((m / 1000000 : Nat) : Int) + ((n / 1000000 : Nat) : Int) ≤
    ((m + n) / 1000000 : Nat)
  exact_mod_cast Nat.add_div_le_add_div m n 1000000

theorem tdiv_cast_nonneg (m : Nat) : 0 ≤ Int.tdiv (m : Int) 1000000 := by
  show 0 ≤ ((m / 1000000 : Nat) : Int)
  exact_mod_cast Nat.zero_le _

end httpclient

/-- C8: for every computed timing result of a finished request (Send
always sets `requestStart` and `bodyDone`, and the monotonic clock
readings are ordered), `total ≥ ttfb + download − 1`, where each delta
is the truncated-to-integer-millisecond difference of its two endpoints
and is zero when either endpoint is unset. -/
theorem C8_timing_total_inequality (t : httpclient.TimingTrackerState)
    (hrs : t.requestStart ≠ 0) (hbd : t.bodyDone ≠ 0)
    (hord : t.requestStart ≤ t.bodyDone)
    (hfb : t.gotFirstByte ≠ 0 →
      t.requestStart ≤ t.gotFirstByte ∧ t.gotFirstByte ≤ t.bodyDone) :
    (httpclient.timingResult t).total ≥
      (httpclient.timingResult t).ttfb +
        (httpclient.timingResult t).download - 1 := by
  unfold httpclient.timingResult httpclient.durationMs
  dsimp only
  rw [if_pos (And.intro hrs hbd)]
  by_cases hf : t.gotFirstByte = 0
  · rw [if_neg (fun hc => hc.2 hf), if_neg (fun hc => hc.1 hf)]
    obtain ⟨m, hm⟩ := Int.eq_ofNat_of_zero_le
      (by omega : (0 : Int) ≤ t.bodyDone - t.requestStart)
    rw [hm]
    have := httpclient.tdiv_cast_nonneg m
    omega
  · rw [if_pos (And.intro hrs hf), if_pos (And.intro hf hbd)]
    obtain ⟨hfo, hfd⟩ := hfb hf
    have hsum : t.bodyDone - t.requestStart =
        (t.gotFirstByte - t.requestStart) + (t.bodyDone - t.gotFirstByte) := by
      ring
    rw [hsum]
    have := httpclient.tdiv_add_le_tdiv
      (by omega : (0 : Int) ≤ t.gotFirstByte - t.requestStart)
      (by omega : (0 : Int) ≤ t.bodyDone - t.gotFirstByte)
    omega

/-- Witness for C8 at a concrete tracker state (request start 1 ms,
first byte 1.5 ms, body done 3 ms on the nanosecond clock). -/
theorem C8_timing_total_inequality_witness :
    (httpclient.timingResult ⟨0, 0, 0, 0, 1500000, 1000000, 3000000⟩).total ≥
      (httpclient.timingResult ⟨0, 0, 0, 0, 1500000, 1000000, 3000000⟩).ttfb +
        (httpclient.timingResult
            ⟨0, 0, 0, 0, 1500000, 1000000, 3000000⟩).download - 1 :=
  C8_timing_total_inequality ⟨0, 0, 0, 0, 1500000, 1000000, 3000000⟩
    (by decide) (by decide) (by decide) (fun _ => by decide)

/-- C10: on the custom HTTP/2 path, a response HEADERS block whose
`:status` value is non-numeric (i.e. `strconv.Atoi` returns an error
with value 0) does not fail the round trip: the response is returned
successfully with status code 0 and the raw `:status` value embedded in
the status phrase (`http.StatusText(0)` being empty). -/
theorem C10_nonnumeric_status (v : GoStr) (hv : goAtoi v = (0, true)) :
    http2fp.readResponse 1
        [http2fp.RecvFrame.headers 1 [⟨":status".toList, v⟩] true] =
      .ok ⟨0, v ++ " ".toList ++ http2fp.goStatusText 0, [], []⟩ ∧
    http2fp.goStatusText 0 = [] := by
  constructor
  · show http2fp.readResponseLoop 1
      [http2fp.RecvFrame.headers 1 [⟨":status".toList, v⟩] true]
      ⟨0, [], [], []⟩ [] false = _
    unfold http2fp.readResponseLoop
    dsimp only
    rw [if_neg (by omega : ¬ ((1 : Nat) ≠ 1))]
    rw [List.foldl_cons, List.foldl_nil]
    unfold http2fp.applyHeaderField
    rw [if_pos rfl, hv]
    rfl
  · rfl

/-- Witness for C10 at the non-numeric status value `abc`. -/
theorem C10_nonnumeric_status_witness :
    http2fp.readResponse 1
        [http2fp.RecvFrame.headers 1
          [⟨":status".toList, "abc".toList⟩] true] =
      .ok ⟨0, "abc".toList ++ " ".toList ++ http2fp.goStatusText 0,
        [], []⟩ ∧
    http2fp.goStatusText 0 = [] :=
  C10_nonnumeric_status "abc".toList rfl

namespace httpclient

theorem lexLtb_total : ∀ {a b : GoStr}, a ≠ b → lexLtb a b = false →
    lexLtb b a = true
  | [], [], h, _ => absurd rfl h
  | [], _ :: _, _, h2 => by simp [lexLtb] at h2
  | _ :: _, [], _, _ => rfl
  | x :: xs, y :: ys, h, h2 => by
    unfold lexLtb at h2 ⊢
    by_cases hxy : x < y
    · rw [if_pos hxy] at h2
      exact absurd h2 (by simp)
    · rw [if_neg hxy] at h2
      by_cases hxe : x = y
      · subst hxe
        rw [if_pos rfl] at h2
        rw [if_neg (lt_irrefl x), if_pos rfl]
        exact lexLtb_total (fun hh => h (by rw [hh])) h2
      · have hyx : y < x := by
          rcases lt_trichotomy x y with h3 | h3 | h3
          · exact absurd h3 hxy
          · exact absurd h3 hxe
          · exact h3
        rw [if_pos hyx]

theorem insertSortedKey_cons_of_lt {k x : GoStr} {rest : List GoStr}
    (hx : lexLtb x k = true) :
    insertSortedKey k (x :: rest) = x :: insertSortedKey k rest := by
  show (if lexLtb x k = true then x :: insertSortedKey k rest
    else k :: x :: rest) = _
  rw [if_pos hx]

theorem insertSortedKey_cons_of_ge {k x : GoStr} {rest : List GoStr}
    (hx : ¬ lexLtb x k = true) :
    insertSortedKey k (x :: rest) = k :: x :: rest := by
  show (if lexLtb x k = true then x :: insertSortedKey k rest
    else k :: x :: rest) = _
  rw [if_neg hx]

theorem insertSortedKey_perm (k : GoStr) :
    ∀ l, List.Perm (insertSortedKey k l) (k :: l)
  | [] => List.Perm.refl _
  | x :: rest => by
    by_cases hx : lexLtb x k = true
    · rw [insertSortedKey_cons_of_lt hx]
      exact (((insertSortedKey_perm k rest).cons x).trans
        (List.Perm.swap k x rest))
    · rw [insertSortedKey_cons_of_ge hx]

theorem insertSortedKey_head (k : GoStr) (l : List GoStr) :
    insertSortedKey k l = k :: l ∨
    (∃ x rest, l = x :: rest ∧
      insertSortedKey k l = x :: insertSortedKey k rest ∧
      lexLtb x k = true) := by
  cases l with
  | nil => exact Or.inl rfl
  | cons x rest =>
    by_cases hx : lexLtb x k = true
    · exact Or.inr ⟨x, rest, rfl, insertSortedKey_cons_of_lt hx, hx⟩
    · exact Or.inl (insertSortedKey_cons_of_ge hx)

theorem insertSortedKey_chain (k : GoStr) :
    ∀ l, List.Chain' (fun a b => lexLtb a b = true) l →
      (∀ x ∈ l, x ≠ k) →
      List.Chain' (fun a b => lexLtb a b = true) (insertSortedKey k l)
  | [], _, _ => List.chain'_singleton k
  | x :: rest, hc, hne => by
    obtain ⟨hhead, htail⟩ := List.chain'_cons'.mp hc
    by_cases hx : lexLtb x k = true
    · rw [insertSortedKey_cons_of_lt hx]
      apply List.chain'_cons'.mpr
      refine ⟨?_, insertSortedKey_chain k rest htail
        (fun y hy => hne y (List.mem_cons_of_mem x hy))⟩
      intro b hb
      rcases insertSortedKey_head k rest with h | ⟨y, rest', hr, heq, _⟩
      · rw [h] at hb
        simp at hb
        subst hb
        exact hx
      · rw [heq] at hb
        simp at hb
        subst hb
        exact hhead _ (by rw [hr]; rfl)
    · rw [insertSortedKey_cons_of_ge hx]
      apply List.chain'_cons'.mpr
      refine ⟨?_, hc⟩
      intro b hb
      simp at hb
      subst hb
      exact lexLtb_total (hne x (List.mem_cons_self x rest))
        (by revert hx; cases lexLtb x k <;> simp)

theorem sortStrings_perm : ∀ ks : List GoStr,
    List.Perm (sortStrings ks) ks
  | [] => List.Perm.refl _
  | k :: rest => by
    show List.Perm (insertSortedKey k (sortStrings rest)) _
    exact (insertSortedKey_perm k _).trans ((sortStrings_perm rest).cons k)

theorem sortStrings_chain : ∀ ks : List GoStr, ks.Nodup →
    List.Chain' (fun a b => lexLtb a b = true) (sortStrings ks)
  | [], _ => List.chain'_nil
  | k :: rest, hnd => by
    show List.Chain' _ (insertSortedKey k (sortStrings rest))
    apply insertSortedKey_chain
    · exact sortStrings_chain rest (List.Nodup.of_cons hnd)
    · intro x hx heq
      subst heq
      exact (List.nodup_cons.mp hnd).1 ((sortStrings_perm rest).mem_iff.mp hx)

end httpclient

namespace httpclient

theorem urlValuesSet_fst_of_present {vals : List (GoStr × List GoStr)}
    {k : GoStr} (v : GoStr) (hp : vals.any (fun e => e.1 = k) = true) :
    (urlValuesSet vals k v).map Prod.fst = vals.map Prod.fst := by
  unfold urlValuesSet
  rw [if_pos hp, List.map_map]
  apply List.map_congr_left
  intro e _
  show (if e.1 = k then (k, [v]) else e).1 = e.1
  by_cases he : e.1 = k
  · rw [if_pos he, he]
  · rw [if_neg he]

theorem urlValuesSet_fst_of_absent {vals : List (GoStr × List GoStr)}
    {k : GoStr} (v : GoStr) (hp : ¬ vals.any (fun e => e.1 = k) = true) :
    (urlValuesSet vals k v).map Prod.fst = vals.map Prod.fst ++ [k] := by
  unfold urlValuesSet
  rw [if_neg hp, List.map_append]
  rfl

theorem mem_keys_iff_any {vals : List (GoStr × List GoStr)} {k : GoStr} :
    k ∈ vals.map Prod.fst ↔ vals.any (fun e => e.1 = k) = true := by
  rw [List.any_eq_true]
  constructor
  · intro h
    obtain ⟨e, he, hk⟩ := List.mem_map.mp h
    exact ⟨e, he, by simp [hk]⟩
  · intro ⟨e, he, hk⟩
    simp at hk
    exact List.mem_map.mpr ⟨e, he, hk⟩

theorem urlValuesSet_nodup {vals : List (GoStr × List GoStr)}
    {k : GoStr} (v : GoStr) (hnd : (vals.map Prod.fst).Nodup) :
    ((urlValuesSet vals k v).map Prod.fst).Nodup := by
  by_cases hp : vals.any (fun e => e.1 = k) = true
  · rw [urlValuesSet_fst_of_present v hp]
    exact hnd
  · rw [urlValuesSet_fst_of_absent v hp]
    rw [List.nodup_append]
    refine ⟨hnd, List.nodup_singleton k, ?_⟩
    intro x hx hk
    simp at hk
    subst hk
    exact hp (mem_keys_iff_any.mp hx)

theorem findAppendNone {p : GoStr × List GoStr → Bool}
    {l1 : List (GoStr × List GoStr)} (l2 : List (GoStr × List GoStr))
    (h : l1.find? p = none) :
    (l1 ++ l2).find? p = l2.find? p := by
  induction l1 with
  | nil => rfl
  | cons e rest ih =>
    cases hp : p e with
    | true =>
      rw [List.find?_cons_of_pos _ hp] at h
      exact absurd h (by simp)
    | false =>
      rw [List.find?_cons_of_neg _ (by simp [hp])] at h
      show List.find? p (e :: (rest ++ l2)) = _
      rw [List.find?_cons_of_neg _ (by simp [hp])]
      exact ih h

theorem findAppendSome {p : GoStr × List GoStr → Bool}
    {l1 : List (GoStr × List GoStr)} (l2 : List (GoStr × List GoStr))
    {w : GoStr × List GoStr} (h : l1.find? p = some w) :
    (l1 ++ l2).find? p = some w := by
  induction l1 with
  | nil => exact absurd h (by simp)
  | cons e rest ih =>
    cases hp : p e with
    | true =>
      rw [List.find?_cons_of_pos _ hp] at h
      show List.find? p (e :: (rest ++ l2)) = _
      rw [List.find?_cons_of_pos _ hp]
      exact h
    | false =>
      rw [List.find?_cons_of_neg _ (by simp [hp])] at h
      show List.find? p (e :: (rest ++ l2)) = _
      rw [List.find?_cons_of_neg _ (by simp [hp])]
      exact ih h

theorem lookupSelfPresent : ∀ (vals : List (GoStr × List GoStr))
    (k v : GoStr), vals.any (fun e => e.1 = k) = true →
    urlValuesOf (vals.map (fun e => if e.1 = k then (k, [v]) else e)) k = [v]
  | [], _, _, hp => by simp at hp
  | e :: rest, k, v, hp => by
    rw [List.map_cons]
    by_cases he : e.1 = k
    · rw [if_pos he]
      unfold urlValuesOf
      rw [List.find?_cons_of_pos _ (by simp)]
      rfl
    · rw [if_neg he]
      have hrest : rest.any (fun e => e.1 = k) = true := by
        rcases List.any_eq_true.mp hp with ⟨w, hw, hwk⟩
        rcases List.mem_cons.mp hw with h1 | h1
        · subst h1
          simp at hwk
          exact absurd hwk he
        · exact List.any_eq_true.mpr ⟨w, h1, hwk⟩
      unfold urlValuesOf
      rw [List.find?_cons_of_neg _ (by simp [he])]
      exact lookupSelfPresent rest k v hrest

theorem lookupOtherPresent : ∀ (vals : List (GoStr × List GoStr))
    (k v q : GoStr), q ≠ k →
    urlValuesOf (vals.map (fun e => if e.1 = k then (k, [v]) else e)) q =
      urlValuesOf vals q
  | [], _, _, _, _ => rfl
  | e :: rest, k, v, q, hq => by
    rw [List.map_cons]
    by_cases he : e.1 = k
    · rw [if_pos he]
      unfold urlValuesOf
      rw [List.find?_cons_of_neg _ (by simp [Ne.symm hq]),
        List.find?_cons_of_neg _ (by simp [he, Ne.symm hq])]
      exact lookupOtherPresent rest k v q hq
    · rw [if_neg he]
      by_cases hqe : e.1 = q
      · unfold urlValuesOf
        rw [List.find?_cons_of_pos _ (by simp [hqe]),
          List.find?_cons_of_pos _ (by simp [hqe])]
      · unfold urlValuesOf
        rw [List.find?_cons_of_neg _ (by simp [hqe]),
          List.find?_cons_of_neg _ (by simp [hqe])]
        exact lookupOtherPresent rest k v q hq

theorem anyKeyEqNone {vals : List (GoStr × List GoStr)} {k : GoStr}
    (hp : ¬ vals.any (fun e => e.1 = k) = true) :
    vals.find? (fun e => decide (e.1 = k)) = none := by
  apply List.find?_eq_none.mpr
  intro e he
  simp only [decide_eq_true_eq]
  intro hk
  exact hp (List.any_eq_true.mpr ⟨e, he, by simp [hk]⟩)

theorem urlValuesSet_lookup_self (vals : List (GoStr × List GoStr))
    (k v : GoStr) : urlValuesOf (urlValuesSet vals k v) k = [v] := by
  unfold urlValuesSet
  by_cases hp : vals.any (fun e => e.1 = k) = true
  · rw [if_pos hp]
    exact lookupSelfPresent vals k v hp
  · rw [if_neg hp]
    unfold urlValuesOf
    rw [findAppendNone _ (anyKeyEqNone hp), List.find?_cons_of_pos _ (by simp)]
    rfl

theorem urlValuesSet_lookup_other (vals : List (GoStr × List GoStr))
    (k v : GoStr) {q : GoStr} (hq : q ≠ k) :
    urlValuesOf (urlValuesSet vals k v) q = urlValuesOf vals q := by
  unfold urlValuesSet
  by_cases hp : vals.any (fun e => e.1 = k) = true
  · rw [if_pos hp]
    exact lookupOtherPresent vals k v q hq
  · rw [if_neg hp]
    unfold urlValuesOf
    cases hf : vals.find? (fun e => decide (e.1 = q)) with
    | some w => rw [findAppendSome _ hf]
    | none =>
      rw [findAppendNone _ hf, List.find?_cons_of_neg _ (by simp [Ne.symm hq])]
      rfl

end httpclient

namespace httpclient

theorem urlValuesSet_mem_keys (vals : List (GoStr × List GoStr))
    (k v q : GoStr) :
    q ∈ (urlValuesSet vals k v).map Prod.fst ↔
      q ∈ vals.map Prod.fst ∨ q = k := by
  by_cases hp : vals.any (fun e => e.1 = k) = true
  · rw [urlValuesSet_fst_of_present v hp]
    constructor
    · exact Or.inl
    · rintro (h | h)
      · exact h
      · subst h
        exact mem_keys_iff_any.mpr hp
  · rw [urlValuesSet_fst_of_absent v hp]
    simp [List.mem_append]

theorem lastEnabledValue_append (fds : List KeyValuePair)
    (fd : KeyValuePair) (k : GoStr) :
    lastEnabledValue (fds ++ [fd]) k =
      if fd.enabled ∧ fd.key ≠ [] then
        (if fd.key = k then some fd.value else lastEnabledValue fds k)
      else lastEnabledValue fds k := by
  unfold lastEnabledValue
  rw [List.filter_append, List.reverse_append]
  by_cases hf : fd.enabled ∧ fd.key ≠ []
  · rw [if_pos hf]
    have h1 : List.filter (fun fd => decide (fd.enabled ∧ fd.key ≠ [])) [fd]
        = [fd] := by simp [hf]
    rw [h1]
    show ((List.reverse [fd] ++ _).find? _).map _ = _
    rw [List.reverse_singleton, List.singleton_append]
    by_cases hk : fd.key = k
    · rw [List.find?_cons_of_pos _ (by simp [hk])]
      rw [if_pos hk]
      rfl
    · rw [List.find?_cons_of_neg _ (by simp [hk])]
      rw [if_neg hk]
  · rw [if_neg hf]
    have h1 : List.filter (fun fd => decide (fd.enabled ∧ fd.key ≠ [])) [fd]
        = [] := by simp [hf]
    rw [h1]
    rfl

theorem buildFormValues_append (fds : List KeyValuePair)
    (fd : KeyValuePair) :
    buildFormValues (fds ++ [fd]) =
      if fd.enabled ∧ fd.key ≠ [] then
        urlValuesSet (buildFormValues fds) fd.key fd.value
      else buildFormValues fds := by
  unfold buildFormValues
  rw [List.foldl_append, List.foldl_cons, List.foldl_nil]

theorem buildFormValues_inv (formData : List KeyValuePair) :
    ((buildFormValues formData).map Prod.fst).Nodup ∧
    (∀ k, urlValuesOf (buildFormValues formData) k =
      ((lastEnabledValue formData k).map (fun v => [v])).getD []) ∧
    (∀ k, k ∈ (buildFormValues formData).map Prod.fst ↔
      lastEnabledValue formData k ≠ none) := by
  induction formData using List.reverseRecOn with
  | nil =>
    refine ⟨List.nodup_nil, fun k => rfl,
      fun k => by simp [buildFormValues, lastEnabledValue]⟩
  | append_singleton l fd ih =>
    obtain ⟨ihn, ihv, ihd⟩ := ih
    rw [buildFormValues_append]
    by_cases hf : fd.enabled ∧ fd.key ≠ []
    · rw [if_pos hf]
      refine ⟨urlValuesSet_nodup fd.value ihn, ?_, ?_⟩
      · intro k
        rw [lastEnabledValue_append, if_pos hf]
        by_cases hk : fd.key = k
        · subst hk
          rw [urlValuesSet_lookup_self, if_pos rfl]
          rfl
        · rw [urlValuesSet_lookup_other _ _ _ (fun h => hk h.symm)]
          rw [if_neg hk]
          exact ihv k
      · intro k
        rw [lastEnabledValue_append, if_pos hf]
        rw [urlValuesSet_mem_keys]
        by_cases hk : fd.key = k
        · rw [if_pos hk]
          constructor
          · intro _
            simp
          · intro _
            exact Or.inr hk.symm
        · rw [if_neg hk]
          constructor
          · rintro (h | h)
            · exact (ihd k).mp h
            · exact absurd h.symm hk
          · intro h
            exact Or.inl ((ihd k).mpr h)
    · rw [if_neg hf]
      refine ⟨ihn, ?_, ?_⟩
      · intro k
        rw [lastEnabledValue_append, if_neg hf]
        exact ihv k
      · intro k
        rw [lastEnabledValue_append, if_neg hf]
        exact ihd k

theorem flatMapSingletonFst (f : GoStr → List GoStr) :
    ∀ ks : List GoStr, (∀ k ∈ ks, ∃ v, f k = [v]) →
      (ks.flatMap (fun k => (f k).map (fun v => (k, v)))).map Prod.fst = ks
  | [], _ => rfl
  | k :: ks, h => by
    obtain ⟨v, hv⟩ := h k (by simp)
    rw [List.flatMap_cons, List.map_append, hv]
    rw [flatMapSingletonFst f ks (fun x hx => h x (by simp [hx]))]
    rfl

end httpclient

/-- C9: for every request with bodyType `urlencoded`, the encoded body
contains at most one value per key — among enabled form entries sharing
a key only the last entry's value is sent (`url.Values.Set` replaces) —
and keys are emitted in ascending sorted order (`url.Values.Encode`
sorts keys), not in form-entry order: the emitted (key, value) pairs
have strictly ascending, duplicate-free keys, and `(k, v)` is emitted
iff `v` is the value of the last enabled form entry with key `k`. -/
theorem C9_urlencoded_last_value_sorted
    (formData : List httpclient.KeyValuePair) :
    List.Chain' (fun a b => httpclient.lexLtb a b = true)
      ((httpclient.urlValuesEncodePairs
        (httpclient.buildFormValues formData)).map Prod.fst) ∧
    ((httpclient.urlValuesEncodePairs
        (httpclient.buildFormValues formData)).map Prod.fst).Nodup ∧
    ∀ k v, ((k, v) ∈ httpclient.urlValuesEncodePairs
        (httpclient.buildFormValues formData) ↔
      httpclient.lastEnabledValue formData k = some v) := by
  obtain ⟨hnd, hval, hdom⟩ := httpclient.buildFormValues_inv formData
  have hsing : ∀ k ∈ httpclient.sortStrings
      ((httpclient.buildFormValues formData).map Prod.fst),
      ∃ v, httpclient.urlValuesOf (httpclient.buildFormValues formData) k
        = [v] := by
    intro k hk
    have hk2 : k ∈ (httpclient.buildFormValues formData).map Prod.fst :=
      (httpclient.sortStrings_perm _).mem_iff.mp hk
    cases hwo : httpclient.lastEnabledValue formData k with
    | none => exact absurd hwo ((hdom k).mp hk2)
    | some w =>
      refine ⟨w, ?_⟩
      rw [hval k, hwo]
      rfl
  have hfst : (httpclient.urlValuesEncodePairs
      (httpclient.buildFormValues formData)).map Prod.fst =
      httpclient.sortStrings
        ((httpclient.buildFormValues formData).map Prod.fst) := by
    unfold httpclient.urlValuesEncodePairs
    exact httpclient.flatMapSingletonFst _ _ hsing
  refine ⟨?_, ?_, ?_⟩
  · rw [hfst]
    exact httpclient.sortStrings_chain _ hnd
  · rw [hfst]
    exact ((httpclient.sortStrings_perm _).nodup_iff).mpr hnd
  · intro k v
    unfold httpclient.urlValuesEncodePairs
    rw [List.mem_flatMap]
    constructor
    · rintro ⟨k', hk', hin⟩
      obtain ⟨v', hv', heq⟩ := List.mem_map.mp hin
      injection heq with h1 h2
      rw [h1] at hk' hv'
      rw [h2] at hv'
      have hk2 : k ∈ (httpclient.buildFormValues formData).map Prod.fst :=
        (httpclient.sortStrings_perm _).mem_iff.mp hk'
      cases hwo : httpclient.lastEnabledValue formData k with
      | none => exact absurd hwo ((hdom k).mp hk2)
      | some w =>
        rw [hval k, hwo] at hv'
        simp at hv'
        rw [hv']
    · intro hlast
      refine ⟨k, ?_, ?_⟩
      · apply (httpclient.sortStrings_perm _).mem_iff.mpr
        apply (hdom k).mpr
        rw [hlast]
        simp
      · rw [hval k, hlast]
        exact List.mem_map.mpr ⟨v, by simp, rfl⟩
